import Mathlib

/-!
Verification development for the CalculadoraPy repository.

The definitions below are shallow embeddings of the Python sources:
* `arbitrary_precision_engine.py` — `ArbitraryPrecisionCalculatorEngine`
  (state machine over expression / working digits, guard precision);
* `formula_evaluator.py` — the preprocessing passes `_replace_factorial`
  and `_replace_percentage`;
* `calculator_ui.py` — `ResultDisplay`, the fixed-width scrolling window
  formatter (canonical form parsing, the three layouts, the forward /
  backward scroll step, and the precision prefetch triggers).

Texts are modelled as `List Char` (Python strings are sequences of unicode
code points, and `len`, slicing and concatenation correspond to
`List.length`, `take`/`drop` and `++`).  Python `int` is modelled as `Int`
(arbitrary precision in both worlds); quantities that are provably
non-negative are occasionally kept as `Nat`, with `max 0 _` clamps made
explicit wherever the Python code uses them.
-/

namespace CalcPy

/-! ## Basic text utilities -/

/-- The decimal digit character for `n % 10`. -/
def digitChar (n : Nat) : Char :=
  Char.ofNat (48 + n % 10)

/-- Little-endian list of decimal digit characters of `n` (`[digitChar n]`
for `n < 10`); the structural fuel only needs to dominate the digit count
and is always sufficient at `n + 1`. -/
def natDigitsRevAux : Nat → Nat → List Char
  | 0, _ => []
  | fuel + 1, n =>
    if n < 10 then [digitChar n]
    else digitChar (n % 10) :: natDigitsRevAux fuel (n / 10)

/-- Little-endian list of decimal digit characters of `n`. -/
def natDigitsRev (n : Nat) : List Char :=
  natDigitsRevAux (n + 1) n

/-- Decimal representation of a natural number, as Python `str(n)`. -/
def natRepr (n : Nat) : List Char :=
  (natDigitsRev n).reverse

/-- Python `f"{n:+d}"`: decimal representation with a forced sign. -/
def intReprForced (n : Int) : List Char :=
  if n < 0 then '-' :: natRepr (-n).toNat else '+' :: natRepr n.toNat

/-- Decimal representation of an integer, as Python `str(n)` (no forced
sign). -/
def intRepr (n : Int) : List Char :=
  if n < 0 then '-' :: natRepr (-n).toNat else natRepr n.toNat

/-- Python `int(s)` on an optionally signed digit string (`None` on anything
`int` would reject). -/
def parseSignedInt : List Char → Option Int
  | [] => none
  | c :: rest =>
    if c = '+' then
      if rest ≠ [] ∧ rest.all Char.isDigit then
        some (Int.ofNat (rest.foldl (fun a d => a * 10 + (d.toNat - 48)) 0))
      else none
    else if c = '-' then
      if rest ≠ [] ∧ rest.all Char.isDigit then
        some (-(Int.ofNat (rest.foldl (fun a d => a * 10 + (d.toNat - 48)) 0)))
      else none
    else if (c :: rest).all Char.isDigit then
      some (Int.ofNat ((c :: rest).foldl (fun a d => a * 10 + (d.toNat - 48)) 0))
    else none

/-- Python slicing `l[a:b]` for `0 ≤ a ≤ b` (clamped at the ends, as in
Python). -/
def slice (l : List Char) (a b : Nat) : List Char :=
  (l.drop a).take (b - a)

/-- The last `k` elements of `l` (Python `l[-k:]` for `k ≥ 1`). -/
def takeLast (k : Nat) (l : List Char) : List Char :=
  l.drop (l.length - k)

/-- Python `max(1, x)` on an integer quantity, landing in `Nat`. -/
def natMax1 (x : Int) : Nat :=
  (max 1 x).toNat

/-- Python `max(0, x)` on an integer quantity, landing in `Nat`. -/
def natMax0 (x : Int) : Nat :=
  (max 0 x).toNat

/-- Count of `'0'` characters at the end of `text`
(`ResultDisplay._count_trailing_zeros`). -/
def countTrailingZeros (text : List Char) : Nat :=
  (text.reverse.takeWhile (fun c => c = '0')).length

/-- Strip trailing `'0'` characters. -/
def stripTrailingZeros (text : List Char) : List Char :=
  (text.reverse.dropWhile (fun c => c = '0')).reverse

/-- Highest index of `c` in `l`, Python `l.rfind(c)` (`none` for `-1`). -/
def rfindIdx (l : List Char) (c : Char) : Option Nat :=
  match (l.reverse.findIdx? (fun x => x = c)) with
  | none => none
  | some j => some (l.length - 1 - j)

/-- Python `str.strip()` (whitespace at both ends). -/
def trimChars (l : List Char) : List Char :=
  ((l.dropWhile Char.isWhitespace).reverse.dropWhile Char.isWhitespace).reverse

/-! ## Arbitrary-precision engine (`arbitrary_precision_engine.py`)

The engine is modelled generically in the value type `V` and in the raw
evaluation function `rawEval : String → Nat → Except EngineError V`, which
stands for the body of `_evaluate_with_digits` after the emptiness check
(raw validation, preprocessing, numeric-literal promotion and the sandboxed
`eval` at the given internal guard precision).  The surrounding state
machine — what `evaluate`, `can_expand_precision` and
`request_more_precision` read and mutate, and the guard-precision formula
`max(40, digits * 2 + 10)` — is ported exactly. -/

/-- Error outcomes the engine can raise (`ValueError` variants in Python). -/
inductive EngineError where
  /-- "No hay cálculo previo" — `request_more_precision` without a usable
  stored expression. -/
  | invalidState
  /-- "Expresión vacía". -/
  | emptyExpression
  /-- "Error de sintaxis". -/
  | syntaxError
  /-- Any other evaluation failure, keyed by its message. -/
  | other (msg : String)
deriving DecidableEq, Repr

/-- Mutable state of `ArbitraryPrecisionCalculatorEngine`. -/
structure Engine (V : Type) where
  initialDigits : Nat
  precisionStep : Nat
  workingDigits : Nat
  lastExpression : Option String
  lastValue : Option V
deriving Repr

/-- `ArbitraryPrecisionCalculatorEngine.__init__` (the `max(8, ·)` clamps on
the constructor arguments are in the source). -/
def Engine.init (V : Type) (initialDigits precisionStep : Nat) : Engine V :=
  { initialDigits := max 8 initialDigits
    precisionStep := max 8 precisionStep
    workingDigits := max 8 initialDigits
    lastExpression := none
    lastValue := none }

/-- `_evaluate_with_digits`: compute the internal guard precision
`max(40, digits * 2 + 10)`, reject empty / all-whitespace expressions, and
otherwise run the raw evaluation at the guard precision. -/
def evaluateWithDigits {V : Type} (rawEval : String → Nat → Except EngineError V)
    (e : String) (digits : Nat) : Except EngineError V :=
  let internalDps := max 40 (digits * 2 + 10)
  if e = "" ∨ trimChars e.toList = [] then .error .emptyExpression
  else rawEval e internalDps

/-- `evaluate`: store the expression, reset the working digit count to the
configured initial value, then evaluate; the two stores happen before (and
therefore survive) an evaluation failure. -/
def Engine.evaluate {V : Type} (rawEval : String → Nat → Except EngineError V)
    (fmt : V → Nat → String) (eng : Engine V) (e : String) :
    Engine V × Except EngineError String :=
  let eng := { eng with lastExpression := some e, workingDigits := eng.initialDigits }
  match evaluateWithDigits rawEval e eng.workingDigits with
  | .ok v => ({ eng with lastValue := some v }, .ok (fmt v eng.workingDigits))
  | .error err => (eng, .error err)

/-- `can_expand_precision`: `self._last_expression is not None`. -/
def Engine.canExpandPrecision {V : Type} (eng : Engine V) : Bool :=
  eng.lastExpression.isSome

/-- `request_more_precision`: the guard `if not self._last_expression`
raises for a missing expression *and* for a stored empty string (Python
falsiness); otherwise the working digit count is increased by the precision
step and the stored expression is fully re-evaluated at the new guard
precision. -/
def Engine.requestMorePrecision {V : Type}
    (rawEval : String → Nat → Except EngineError V) (fmt : V → Nat → String)
    (eng : Engine V) : Engine V × Except EngineError String :=
  match eng.lastExpression with
  | none => (eng, .error .invalidState)
  | some e =>
    if e = "" then (eng, .error .invalidState)
    else
      let eng := { eng with workingDigits := eng.workingDigits + eng.precisionStep }
      match evaluateWithDigits rawEval e eng.workingDigits with
      | .ok v => ({ eng with lastValue := some v }, .ok (fmt v eng.workingDigits))
      | .error err => (eng, .error err)

/-! ## Expression preprocessing (`formula_evaluator.py`)

`FormulaEvaluator._replace_factorial` walks the character array right to
left; on a `'!'` it determines the operand immediately to the left (a
balanced parenthesis group, a maximal digit/`'.'` run, or a maximal
letter/`'π'` run), splices in `factorial(operand)` and continues scanning
to the left of the splice.  The index juggling is ported exactly; the scan
index `i` is carried as `i + 1 : Nat` so that the `i = -1` exit is the
`0` case. -/

/-- The inner `while j >= 0 and depth > 0` scan of `_replace_factorial`:
the argument is `j + 1`, the result is the final `j + 1` (the index of the
opening parenthesis of the balanced group, or `0` when unbalanced). -/
def factParenScan (chars : List Char) : Nat → Nat → Nat
  | 0, _ => 0
  | jp1 + 1, depth =>
    if depth = 0 then jp1 + 1
    else
      let c := chars.getD jp1 ' '
      let depth' := if c = ')' then depth + 1 else if c = '(' then depth - 1 else depth
      factParenScan chars jp1 depth'

theorem factParenScan_le (chars : List Char) (f d : Nat) :
    factParenScan chars f d ≤ f := by
  induction f generalizing d with
  | zero => simp [factParenScan]
  | succ n ih =>
    simp only [factParenScan]
    split
    · exact Nat.le_refl _
    · exact Nat.le_succ_of_le (ih _)

/-- The `while start > 0 and pred(chars[start-1])` scans of
`_replace_factorial`: returns the start of the maximal run of
`pred`-characters ending just before the given index. -/
def runStart (chars : List Char) (pred : Char → Bool) : Nat → Nat
  | 0 => 0
  | s + 1 => if pred (chars.getD s ' ') then runStart chars pred s else s + 1

theorem runStart_le (chars : List Char) (pred : Char → Bool) (s : Nat) :
    runStart chars pred s ≤ s := by
  induction s with
  | zero => simp [runStart]
  | succ n ih =>
    simp only [runStart]
    split
    · exact Nat.le_succ_of_le ih
    · exact Nat.le_refl _

/-- Python `c.isdigit()` restricted to the validated character whitelist. -/
def pyIsDigit (c : Char) : Bool := c.isDigit

/-- Python `c.isalpha()` (on the whitelist: ASCII letters and `'π'`, which
is alphabetic in Python). -/
def pyIsAlpha (c : Char) : Bool := c.isAlpha || c = 'π'

/-- Main right-to-left loop of `_replace_factorial`; the second argument
is `i + 1` where `i` is the current scan index.  The structural `fuel`
only needs to dominate the number of loop iterations; `i` strictly
decreases on every iteration (after a splice the scan resumes at
`j - 1 < i`), so fuel `i + 2` is always sufficient. -/
def replaceFactorialAux (fuel : Nat) (chars : List Char) : Nat → List Char
  | 0 => chars
  | ip1 + 1 =>
    match fuel with
    | 0 => chars
    | fuel + 1 =>
    let i := ip1
    if chars.getD i ' ' ≠ '!' then replaceFactorialAux fuel chars ip1
    else if i = 0 then
      -- j = i - 1 < 0: none of the operand branches applies, `i -= 1`.
      replaceFactorialAux fuel chars ip1
    else
      let j := i - 1
      let cj := chars.getD j ' '
      if cj = ')' then
        let j2 := factParenScan chars (i - 1) 1
        let operand := slice chars j2 i
        let chars' := chars.take j2 ++ ("factorial(".toList ++ operand ++ [')'])
          ++ chars.drop (i + 1)
        replaceFactorialAux fuel chars' j2
      else if pyIsDigit cj || cj = '.' then
        let start := runStart chars (fun c => pyIsDigit c || c = '.') j
        let operand := slice chars start i
        let chars' := chars.take start ++ ("factorial(".toList ++ operand ++ [')'])
          ++ chars.drop (i + 1)
        replaceFactorialAux fuel chars' start
      else if pyIsAlpha cj then
        let start := runStart chars pyIsAlpha j
        let operand := slice chars start i
        let chars' := chars.take start ++ ("factorial(".toList ++ operand ++ [')'])
          ++ chars.drop (i + 1)
        replaceFactorialAux fuel chars' start
      else replaceFactorialAux fuel chars ip1

/-- `FormulaEvaluator._replace_factorial`. -/
def replaceFactorial (expr : List Char) : List Char :=
  replaceFactorialAux (expr.length + 1) expr expr.length

/-! `FormulaEvaluator._replace_percentage` consists of one global
substitution of `((?:\d+(?:\.\d*)?|\.\d+)(?:[eE][+\-]?\d+)?)%` by
`(\1*0.01)` followed by a fixed-point loop substituting
`(\([^()]+\))%` by `(\1*0.01)`.

The matchers below reproduce Python's leftmost backtracking search for
these two patterns.  For the numeric pattern all quantifiers are matched
greedily; the only backtracking Python can perform that ever succeeds is
dropping the optional exponent group when no `%` follows it (shortening
`\d+` or `\.\d*` makes the next character a digit, which can match neither
`[eE]` nor `%`, and dropping the fractional group makes the next character
`'.'`, which also matches neither).  The group pattern is deterministic
(`[^()]+` is a maximal run by construction). -/

/-- Match `\d+(?:\.\d*)?` or `\.\d+` at the head; returns the matched
prefix and the rest. -/
def matchNumberBody (l : List Char) : Option (List Char × List Char) :=
  match l with
  | [] => none
  | c :: rest =>
    if pyIsDigit c then
      let ds := l.takeWhile pyIsDigit
      let r := l.dropWhile pyIsDigit
      match r with
      | '.' :: r2 =>
        let frac := r2.takeWhile pyIsDigit
        some (ds ++ '.' :: frac, r2.dropWhile pyIsDigit)
      | _ => some (ds, r)
    else if c = '.' then
      let ds := rest.takeWhile pyIsDigit
      if ds = [] then none
      else some ('.' :: ds, rest.dropWhile pyIsDigit)
    else none

/-- Match `[eE][+\-]?\d+` at the head; returns the matched prefix and the
rest. -/
def matchExponent (l : List Char) : Option (List Char × List Char) :=
  match l with
  | c :: rest =>
    if c = 'e' ∨ c = 'E' then
      match rest with
      | s :: rest2 =>
        if s = '+' ∨ s = '-' then
          let ds := rest2.takeWhile pyIsDigit
          if ds = [] then none
          else some (c :: s :: ds, rest2.dropWhile pyIsDigit)
        else
          let ds := rest.takeWhile pyIsDigit
          if ds = [] then none
          else some (c :: ds, rest.dropWhile pyIsDigit)
      | [] => none
    else none
  | [] => none

/-- Match the full numeric-percent pattern at the head; returns the
captured literal (group 1) and the rest after the `%`. -/
def tryPercentMatch (l : List Char) : Option (List Char × List Char) :=
  match matchNumberBody l with
  | none => none
  | some (b, r) =>
    match matchExponent r with
    | some (ex, r2) =>
      match r2 with
      | '%' :: r3 => some (b ++ ex, r3)
      | _ =>
        match r with
        | '%' :: r3 => some (b, r3)
        | _ => none
    | none =>
      match r with
      | '%' :: r3 => some (b, r3)
      | _ => none

theorem length_takeWhile_add_dropWhile (p : Char → Bool) (l : List Char) :
    (l.takeWhile p).length + (l.dropWhile p).length = l.length := by
  rw [← List.length_append, List.takeWhile_append_dropWhile]

theorem matchNumberBody_len (l b r : List Char)
    (h : matchNumberBody l = some (b, r)) :
    b.length + r.length = l.length ∧ 0 < b.length := by
  match l with
  | [] => simp [matchNumberBody] at h
  | c :: rest =>
    have hspan := length_takeWhile_add_dropWhile pyIsDigit (c :: rest)
    have hne : pyIsDigit c = true → (c :: rest).takeWhile pyIsDigit ≠ [] := by
      intro hd
      simp [List.takeWhile, hd]
    simp only [matchNumberBody] at h
    split at h
    case isTrue hd =>
      have hne' := hne hd
      have hpos : 0 < ((c :: rest).takeWhile pyIsDigit).length :=
        List.length_pos.mpr hne'
      split at h
      case h_1 r2 heq =>
        have hspan2 := length_takeWhile_add_dropWhile pyIsDigit r2
        simp only [Option.some.injEq, Prod.mk.injEq] at h
        obtain ⟨hb, hr⟩ := h
        subst hb; subst hr
        rw [heq] at hspan
        simp only [List.length_append, List.length_cons] at *
        omega
      case h_2 =>
        simp only [Option.some.injEq, Prod.mk.injEq] at h
        obtain ⟨hb, hr⟩ := h
        subst hb; subst hr
        omega
    case isFalse =>
      split at h
      case isTrue hdot =>
        have hspan2 := length_takeWhile_add_dropWhile pyIsDigit rest
        split at h
        · exact absurd h (by simp)
        · simp only [Option.some.injEq, Prod.mk.injEq] at h
          obtain ⟨hb, hr⟩ := h
          subst hb; subst hr
          simp only [List.length_cons] at *
          omega
      case isFalse => exact absurd h (by simp)

theorem matchExponent_len (l ex r : List Char)
    (h : matchExponent l = some (ex, r)) : ex.length + r.length = l.length := by
  match l with
  | [] => simp [matchExponent] at h
  | c :: rest =>
    simp only [matchExponent] at h
    split at h
    case isTrue hc =>
      match rest with
      | [] => simp at h
      | s :: rest2 =>
        simp only at h
        split at h
        case isTrue hs =>
          have hspan := length_takeWhile_add_dropWhile pyIsDigit rest2
          split at h
          · exact absurd h (by simp)
          · simp only [Option.some.injEq, Prod.mk.injEq] at h
            obtain ⟨hb, hr⟩ := h
            subst hb; subst hr
            simp only [List.length_cons] at *
            omega
        case isFalse hs =>
          have hspan := length_takeWhile_add_dropWhile pyIsDigit (s :: rest2)
          split at h
          · exact absurd h (by simp)
          · simp only [Option.some.injEq, Prod.mk.injEq] at h
            obtain ⟨hb, hr⟩ := h
            subst hb; subst hr
            simp only [List.length_cons] at *
            omega
    case isFalse => exact absurd h (by simp)

theorem tryPercentMatch_shorter (l lit r : List Char)
    (h : tryPercentMatch l = some (lit, r)) : r.length < l.length := by
  simp only [tryPercentMatch] at h
  split at h
  · exact absurd h (by simp)
  case h_2 b br hb =>
    obtain ⟨hlen, hbpos⟩ := matchNumberBody_len _ _ _ hb
    split at h
    case h_1 ex r2 hex =>
      have hexlen := matchExponent_len _ _ _ hex
      split at h
      case h_1 r3 =>
        simp only [Option.some.injEq, Prod.mk.injEq] at h
        obtain ⟨_, hr⟩ := h
        subst hr
        simp only [List.length_cons] at *
        omega
      case h_2 =>
        split at h
        case h_1 r3 =>
          simp only [Option.some.injEq, Prod.mk.injEq] at h
          obtain ⟨_, hr⟩ := h
          subst hr
          simp only [List.length_cons] at *
          omega
        case h_2 => exact absurd h (by simp)
    case h_2 =>
      split at h
      case h_1 r3 =>
        simp only [Option.some.injEq, Prod.mk.injEq] at h
        obtain ⟨_, hr⟩ := h
        subst hr
        simp only [List.length_cons] at *
        omega
      case h_2 => exact absurd h (by simp)

/-- First substitution pass of `_replace_percentage`: replace every
numeric literal (with optional exponent) immediately followed by `%` with
`(literal*0.01)`, scanning left to right over non-overlapping matches.
The structural fuel only needs to dominate the scanned length (every step
consumes at least one character, see `tryPercentMatch_shorter`). -/
def subNumPercentAux : Nat → List Char → List Char
  | 0, l => l
  | fuel + 1, l =>
    match l with
    | [] => []
    | c :: rest =>
      match tryPercentMatch (c :: rest) with
      | some (lit, rest') =>
        '(' :: (lit ++ "*0.01)".toList) ++ subNumPercentAux fuel rest'
      | none => c :: subNumPercentAux fuel rest

/-- The numeric pass with sufficient fuel. -/
def subNumPercent (l : List Char) : List Char :=
  subNumPercentAux (l.length + 1) l

/-- Match `(\([^()]+\))%` at the head; returns the captured group
(including its parentheses) and the rest after the `%`. -/
def tryGroupPercentMatch (l : List Char) : Option (List Char × List Char) :=
  match l with
  | [] => none
  | c :: rest =>
    if c = '(' then
      let inner := rest.takeWhile (fun c => c ≠ '(' ∧ c ≠ ')')
      if inner = [] then none
      else
        match rest.dropWhile (fun c => c ≠ '(' ∧ c ≠ ')') with
        | ')' :: '%' :: r2 => some ('(' :: inner ++ [')'], r2)
        | _ => none
    else none

theorem tryGroupPercentMatch_shape (l grp r : List Char)
    (h : tryGroupPercentMatch l = some (grp, r)) :
    l = grp ++ '%' :: r ∧ 2 < grp.length := by
  match l with
  | [] => simp [tryGroupPercentMatch] at h
  | c :: rest =>
    simp only [tryGroupPercentMatch] at h
    split at h
    case isFalse => exact absurd h (by simp)
    case isTrue hc =>
      subst hc
      split at h
      · exact absurd h (by simp)
      case isFalse hinner =>
        split at h
        case h_1 r2 hdrop =>
          simp only [Option.some.injEq, Prod.mk.injEq] at h
          obtain ⟨hg, hr⟩ := h
          subst hg; subst hr
          have hsplit := List.takeWhile_append_dropWhile
            (p := fun c => decide (c ≠ '(' ∧ c ≠ ')')) (l := rest)
          have hpos : 0 < (rest.takeWhile (fun c => decide (c ≠ '(' ∧ c ≠ ')'))).length :=
            List.length_pos.mpr hinner
          have hrest :
              rest = rest.takeWhile (fun c => decide (c ≠ '(' ∧ c ≠ ')'))
                ++ ')' :: '%' :: r2 := by
            conv_lhs => rw [← hsplit]
            rw [hdrop]
          constructor
          · conv_lhs => rw [hrest]
            simp
          · simp only [List.cons_append, List.length_cons, List.length_append,
              List.length_nil]
            omega
        case h_2 => exact absurd h (by simp)

theorem tryGroupPercentMatch_shorter (l grp r : List Char)
    (h : tryGroupPercentMatch l = some (grp, r)) : r.length < l.length := by
  obtain ⟨hshape, hlen⟩ := tryGroupPercentMatch_shape _ _ _ h
  subst hshape
  simp only [List.length_append, List.length_cons]
  omega

/-- One pass of the group substitution `re.sub(r"(\([^()]+\))%",
r"(\1*0.01)", expr)`: leftmost non-overlapping matches.  The structural
fuel only needs to dominate the scanned length (every step consumes at
least one character, see `tryGroupPercentMatch_shorter`). -/
def subGroupPercentAux : Nat → List Char → List Char
  | 0, l => l
  | fuel + 1, l =>
    match l with
    | [] => []
    | c :: rest =>
      match tryGroupPercentMatch (c :: rest) with
      | some (grp, rest') =>
        '(' :: (grp ++ "*0.01)".toList) ++ subGroupPercentAux fuel rest'
      | none => c :: subGroupPercentAux fuel rest

/-- The group pass with sufficient fuel. -/
def subGroupPercent (l : List Char) : List Char :=
  subGroupPercentAux (l.length + 1) l

/-- Number of `'%'` characters. -/
def percentCount (l : List Char) : Nat :=
  l.countP (fun c => c = '%')

/-- The `while True:` fixed-point loop of `_replace_percentage`, with
explicit fuel (each productive iteration strictly decreases
`percentCount`, so `percentCount + 1` rounds reach the fixed point). -/
def replacePercentageLoop : Nat → List Char → List Char
  | 0, e => e
  | f + 1, e =>
    let u := subGroupPercent e
    if u = e then e else replacePercentageLoop f u

/-- `FormulaEvaluator._replace_percentage`. -/
def replacePercentage (l : List Char) : List Char :=
  let e := subNumPercent l
  replacePercentageLoop (percentCount e + 1) e

theorem percentCount_nil : percentCount [] = 0 := by
  simp [percentCount]

theorem percentCount_cons (c : Char) (t : List Char) :
    percentCount (c :: t) = percentCount t + (if c = '%' then 1 else 0) := by
  simp [percentCount, List.countP_cons]

theorem percentCount_append (a b : List Char) :
    percentCount (a ++ b) = percentCount a + percentCount b := by
  simp [percentCount, List.countP_append]

theorem percentCount_replacement (grp tail : List Char) :
    percentCount ('(' :: (grp ++ "*0.01)".toList) ++ tail)
      = percentCount grp + percentCount tail := by
  have h6 : percentCount "*0.01)".toList = 0 := by decide
  rw [List.cons_append, percentCount_cons, List.append_assoc, percentCount_append,
    percentCount_append, h6, if_neg (by decide)]
  omega

theorem subGroupPercentAux_percentCount (fuel : Nat) :
    ∀ l : List Char,
      percentCount (subGroupPercentAux fuel l) ≤ percentCount l
        ∧ (subGroupPercentAux fuel l = l ∨
            percentCount (subGroupPercentAux fuel l) < percentCount l) := by
  induction fuel with
  | zero =>
    intro l
    exact ⟨Nat.le_refl _, Or.inl rfl⟩
  | succ fuel ih =>
    intro l
    match l with
    | [] => simp [subGroupPercentAux]
    | c :: rest =>
      rw [subGroupPercentAux]
      cases hm : tryGroupPercentMatch (c :: rest) with
      | some p =>
        obtain ⟨grp, rest'⟩ := p
        obtain ⟨hshape, _⟩ := tryGroupPercentMatch_shape _ _ _ hm
        have hcount : percentCount (c :: rest)
            = percentCount grp + 1 + percentCount rest' := by
          rw [hshape, percentCount_append, percentCount_cons, if_pos rfl]
          omega
        have hrec := ih rest'
        simp only
        rw [percentCount_replacement]
        constructor
        · omega
        · right
          omega
      | none =>
        have hrec := ih rest
        simp only
        constructor
        · rw [percentCount_cons, percentCount_cons]
          omega
        · rcases hrec.2 with h | h
          · left; rw [h]
          · right
            rw [percentCount_cons, percentCount_cons]
            omega

theorem subGroupPercent_percentCount (l : List Char) :
    percentCount (subGroupPercent l) ≤ percentCount l
      ∧ (subGroupPercent l = l ∨
          percentCount (subGroupPercent l) < percentCount l) :=
  subGroupPercentAux_percentCount _ l

theorem replacePercentageLoop_fixed (f : Nat) :
    ∀ e : List Char, percentCount e < f →
      subGroupPercent (replacePercentageLoop f e) = replacePercentageLoop f e := by
  induction f with
  | zero => intro e h; omega
  | succ f ih =>
    intro e h
    rw [replacePercentageLoop]
    by_cases heq : subGroupPercent e = e
    · simp [heq]
    · simp only [heq, if_neg, if_false]
      rcases (subGroupPercent_percentCount e).2 with h' | h'
      · exact absurd h' heq
      · exact ih _ (by omega)

/-- The `while True:` loop of `_replace_percentage` always reaches its
fixed point: the returned text admits no further substitution of a
percent-suffixed parenthesis-free group. -/
theorem replacePercentage_fixed (l : List Char) :
    subGroupPercent (replacePercentage l) = replacePercentage l := by
  rw [replacePercentage]
  exact replacePercentageLoop_fixed _ _ (Nat.lt_succ_self _)
/-! ## Scrolling-window result display (`calculator_ui.py`, `ResultDisplay`)

Only the scientific-mode state is modelled (`_sci_mode = True`); this is
the state `set_text` establishes whenever the engine output parses as a
scientific or plain decimal number, and it is the only mode the scrolling
window formatter operates in.  The Tk `Entry`, animation timers and the
clipboard are UI plumbing outside the modelled core; the `StringVar`
contents live in the `text` field.

The five `self._sci_*` attributes that together constitute the canonical
form and its presentation source are grouped in `Canon`; the helper
methods of `ResultDisplay` read exactly these attributes (plus their
shift argument), which the embedding makes explicit by typing them over
`Canon`. -/

/-- `ResultDisplay._sci_source_kind` values `"scientific"` / `"decimal"`. -/
inductive SourceKind where
  | scientific
  | decimal
deriving DecidableEq, Repr

/-- The `_sci_sign`, `_sci_digits`, `_sci_exponent`, `_sci_source_kind`
and `_sci_initial_text` attributes of `ResultDisplay`: the canonical form
(sign, digit string, decimal exponent) plus the source kind and the
unshifted initial text. -/
structure Canon where
  sign : List Char
  digits : List Char
  exponent : Int
  sourceKind : Option SourceKind
  initialText : List Char
deriving DecidableEq, Repr

/-- The mutable fields of `ResultDisplay` that the scrolling logic reads
and writes. -/
structure DState where
  sciMode : Bool
  canon : Canon
  sciShift : Nat
  forceSciCurrentShift : Bool
  /-- The `StringVar` contents (the currently rendered text). -/
  text : List Char
  precisionExhausted : Bool
  loadingMore : Bool
  /-- Whether a `request_more_callback` was supplied. -/
  hasRequestCallback : Bool
deriving DecidableEq, Repr

/-- `ResultDisplay.VISIBLE_CHARS`. -/
def visibleChars : Nat := 17

/-- `ResultDisplay.PREFETCH_MARGIN`. -/
def prefetchMargin : Int := 15

/-- `ResultDisplay.SCI_FRACTION_WINDOW`. -/
def sciFractionWindow : Nat := 30

/-- `ResultDisplay.PLAIN_TAIL_LAST_EXPONENT`. -/
def plainTailLastExponent : Int := 4

/-- `ResultDisplay.SHOW_SHIFTED_SEPARATOR`. -/
def showShiftedSeparator : Bool := false

/-- `ResultDisplay._visible_capacity_chars`. -/
def visibleCapacityChars : Nat := visibleChars

/-- `ResultDisplay.__init__` defaults (with a request callback present, as
in the application and in the regression harness). -/
def initDisplay : DState :=
  { sciMode := false
    canon := { sign := [], digits := [], exponent := 0, sourceKind := none,
               initialText := ['0'] }
    sciShift := 0
    forceSciCurrentShift := false
    text := ['0']
    precisionExhausted := false
    loadingMore := false
    hasRequestCallback := true }

/-- `ResultDisplay._effective_shift`. -/
def effectiveShift (c : Canon) (shift : Nat) : Nat :=
  if c.sourceKind = some .decimal ∧ c.exponent < 0 then shift - 1
  else shift

/-- `ResultDisplay._integer_trailing_zeros`. -/
def integerTrailingZeros (c : Canon) : Option Nat :=
  let digits := c.digits
  if digits = [] then some 0
  else
    let trailing : Int := countTrailingZeros digits
    let scale : Int := c.exponent - ((digits.length : Int) - 1)
    if scale < 0 ∧ trailing < -scale then none
    else some (natMax0 (trailing + scale))

/-- `ResultDisplay._can_render_plain_tail`. -/
def canRenderPlainTail (c : Canon) : Bool :=
  match integerTrailingZeros c with
  | none => false
  | some tz => tz ≤ visibleCapacityChars / 2

/-- `ResultDisplay._virtual_digits_for_shifting`. -/
def virtualDigitsForShifting (c : Canon) : List Char :=
  let digits := c.digits
  if digits = [] then []
  else
    let scale := natMax0 (c.exponent - ((digits.length : Int) - 1))
    if scale = 0 then digits
    else if ¬ canRenderPlainTail c then digits
    else digits ++ List.replicate scale '0'

/-- The `for _ in range(4)` mantissa-budget fixpoint search in
`_build_shifted_scientific_text`. -/
def sciMantissaLoop (e : Int) (coreBudget : Nat) (useSep : Bool) (eff : Nat) :
    Nat → Nat → Nat
  | 0, md => md
  | k + 1, md =>
    let exponent : Int := e - ((eff : Int) + (md : Int) - 1)
    let expText := 'e' :: intReprForced exponent
    let nb0 := natMax1 ((coreBudget : Int) - (expText.length : Int))
    let nb := if useSep then natMax1 ((nb0 : Int) - 1) else nb0
    if nb = md then md else sciMantissaLoop e coreBudget useSep eff k nb

/-- `ResultDisplay._build_shifted_scientific_text`. -/
def buildShiftedScientificText (c : Canon) (shift : Nat)
    (preferPlainTail : Bool) : List Char × Bool :=
  let digits := c.digits
  if digits = [] then (['0'], false)
  else
    let virtual := virtualDigitsForShifting c
    let eff := min (effectiveShift c shift) (virtual.length - 1)
    let sign := c.sign
    let coreBudget := natMax1 (17 - (sign.length : Int))
    if preferPlainTail ∧ canRenderPlainTail c then
      let coreFull := virtual.drop eff
      let effCore : Nat × List Char :=
        if coreFull.length < coreBudget ∧ 0 < eff then
          let missing := coreBudget - coreFull.length
          let eff2 := eff - missing
          (eff2, virtual.drop eff2)
        else (eff, coreFull)
      let coreFull := effCore.2
      if coreBudget ≤ coreFull.length then
        (sign ++ '…' :: takeLast coreBudget coreFull, true)
      else
        (sign ++ '…' :: coreFull, false)
    else
      let useSep := showShiftedSeparator ∧ c.sourceKind = some .decimal
      let mantissaBudget :=
        if useSep then natMax1 ((coreBudget : Int) - 1) else coreBudget
      let md := sciMantissaLoop c.exponent coreBudget useSep eff 4
        (max 1 mantissaBudget)
      let available := natMax1 ((virtual.length : Int) - (eff : Int))
      let shown1 := min available md
      let exp1 : Int := c.exponent - ((eff : Int) + (shown1 : Int) - 1)
      let expText1 := 'e' :: intReprForced exp1
      let maxShown := natMax1 ((coreBudget : Int) - (expText1.length : Int)
        - (if useSep then 1 else 0))
      let shown := min shown1 maxShown
      let exp2 : Int := c.exponent - ((eff : Int) + (shown : Int) - 1)
      let expText := 'e' :: intReprForced exp2
      let mantissa0 := slice virtual eff (eff + shown)
      let mantissa :=
        if useSep ∧ 1 < mantissa0.length then
          let frac := stripTrailingZeros (mantissa0.drop 1)
          if frac ≠ [] then mantissa0.take 1 ++ '.' :: frac else mantissa0.take 1
        else mantissa0
      let core := mantissa ++ expText
      (sign ++ '…' :: core, coreBudget ≤ core.length)

/-- `ResultDisplay._shifted_exponent`. -/
def shiftedExponent (c : Canon) (shift : Nat) : Option Int :=
  let text := (buildShiftedScientificText c shift false).1
  match rfindIdx text 'e' with
  | none => none
  | some marker => parseSignedInt (text.drop (marker + 1))

/-- `ResultDisplay._should_render_plain_tail`. -/
def shouldRenderPlainTail (c : Canon) (shift : Nat) : Bool :=
  if shift = 0 then false
  else if ¬ canRenderPlainTail c then false
  else
    match shiftedExponent c shift with
    | none => true
    | some expo => expo ≤ plainTailLastExponent - 1

/-- `ResultDisplay._is_exact_integer_scientific_value`. -/
def isExactIntegerScientificValue (c : Canon) : Bool :=
  if c.digits = [] then false
  else (c.digits.length : Int) - 1 ≤ c.exponent

/-- `ResultDisplay._should_render_plain_decimal_window`. -/
def shouldRenderPlainDecimalWindow (c : Canon) (shift : Nat) : Bool :=
  if shift = 0 then false
  else if isExactIntegerScientificValue c then false
  else
    match shiftedExponent c shift with
    | none => false
    | some expo =>
      if plainTailLastExponent - 1 < expo then false
      else
        let eff := effectiveShift c shift
        let decimalIndex := c.exponent + 1
        0 ≤ decimalIndex - (eff : Int)

/-- `ResultDisplay._build_plain_decimal_window_text`. -/
def buildPlainDecimalWindowText (c : Canon) (shift : Nat) :
    Option (List Char × Bool) :=
  if ¬ shouldRenderPlainDecimalWindow c shift then none
  else
    let digits := virtualDigitsForShifting c
    if digits = [] then none
    else
      let eff := min (effectiveShift c shift) (digits.length - 1)
      let sign := c.sign
      let bodyWidth := natMax1 (17 - (sign.length : Int))
      let decimalIndex := c.exponent + 1
      let dotPos : Int := decimalIndex - (eff : Int)
      if (bodyWidth : Int) ≤ dotPos then
        let chunk := slice digits eff (eff + bodyWidth)
        if chunk = [] then none
        else some (sign ++ '…' :: chunk, bodyWidth ≤ chunk.length)
      else
        let digitsNeeded := max 1 (bodyWidth - 1)
        let chunk := slice digits eff (eff + digitsNeeded)
        if chunk = [] then none
        else
          let insertAt := min (natMax0 dotPos) chunk.length
          let core := chunk.take insertAt ++ '.' :: chunk.drop insertAt
          some (sign ++ '…' :: core, bodyWidth ≤ core.length)

/-- `ResultDisplay._plain_decimal_right_edge`. -/
def plainDecimalRightEdge (c : Canon) (shift : Nat) : Option Nat :=
  if ¬ shouldRenderPlainDecimalWindow c shift then none
  else
    let digits := virtualDigitsForShifting c
    if digits = [] then none
    else
      let eff := min (effectiveShift c shift) (digits.length - 1)
      let bodyWidth := natMax1 (17 - (c.sign.length : Int))
      let decimalIndex := c.exponent + 1
      let dotPos : Int := decimalIndex - (eff : Int)
      let digitsNeeded :=
        if (bodyWidth : Int) ≤ dotPos then bodyWidth else max 1 (bodyWidth - 1)
      some (min digits.length (eff + digitsNeeded))

/-- `ResultDisplay._plain_decimal_dot_position`. -/
def plainDecimalDotPosition (c : Canon) (shift : Nat) : Option Int :=
  if ¬ shouldRenderPlainDecimalWindow c shift then none
  else
    let eff := effectiveShift c shift
    some (c.exponent + 1 - (eff : Int))

/-- `ResultDisplay._allow_underfull_progress`. -/
def allowUnderfullProgress (c : Canon) (shift : Nat) : Bool :=
  0 < shift ∧ canRenderPlainTail c

/-- `ResultDisplay._is_plain_decimal_dot_start_state` (of the current
shift). -/
def isPlainDecimalDotStartState (c : Canon) (shift : Nat) : Bool :=
  if ¬ shouldRenderPlainDecimalWindow c shift then false
  else plainDecimalDotPosition c shift = some 0

/-- `ResultDisplay._format_initial_scientific`. -/
def formatInitialScientific (c : Canon) : List Char :=
  let expText := 'e' :: intReprForced c.exponent
  let budget := natMax1 (17 - (c.sign.length : Int) - (expText.length : Int))
  let mantissa :=
    if budget = 1 then c.digits.take 1
    else if budget = 2 then c.digits.take 2
    else
      let frac := slice c.digits 1 (1 + (budget - 2))
      if frac ≠ [] then c.digits.take 1 ++ '.' :: frac
      else c.digits.take 1
  c.sign ++ mantissa ++ expText

/-- `ResultDisplay._initial_visible_text`. -/
def initialVisibleText (c : Canon) : List Char :=
  let text := c.initialText
  if c.sourceKind ≠ some .decimal then text
  else if text.length ≤ visibleCapacityChars then text
  else text.take visibleCapacityChars

/-- `ResultDisplay._initial_text_fits_visible_window`. -/
def initialTextFitsVisibleWindow (c : Canon) : Bool :=
  if c.sourceKind ≠ some .decimal then false
  else
    let text := trimChars c.initialText
    if text = [] then true
    else text.length ≤ visibleCapacityChars

/-- `ResultDisplay._preview_scientific_text`. -/
def previewScientificText (c : Canon) (shift : Nat) : List Char :=
  if shift = 0 then c.initialText
  else
    match buildPlainDecimalWindowText c shift with
    | some pd => pd.1
    | none =>
      let atTerminalShift :=
        if canRenderPlainTail c then shouldRenderPlainTail c shift
        else ¬ (buildShiftedScientificText c (shift + 1) false).2
      (buildShiftedScientificText c shift atTerminalShift).1

/-- The `while shift > 0` clamp of `_render_scientific`: decrement the
shift until the shifted scientific text is full width. -/
def clampToFullWidth (c : Canon) : Nat → Nat
  | 0 => 0
  | s + 1 =>
    if (buildShiftedScientificText c (s + 1) false).2 then s + 1
    else clampToFullWidth c s

/-- The body of `ResultDisplay._render_scientific` as a function of the
attributes it reads — the canonical form, the current shift and the
force-scientific flag — returning the attributes it writes: the (possibly
clamped) shift, the force-scientific flag and the rendered text. -/
def renderCore (c : Canon) (shift0 : Nat) (force : Bool) :
    Nat × Bool × List Char :=
  if c.digits = [] then (shift0, force, ['0'])
  else
    let shift :=
      if ¬ (allowUnderfullProgress c shift0
            ∨ shouldRenderPlainDecimalWindow c shift0) then
        clampToFullWidth c shift0
      else shift0
    if shift = 0 then (shift, force, initialVisibleText c)
    else
      match buildPlainDecimalWindowText c shift, force with
      | some pd, false => (shift, force, pd.1)
      | _, _ =>
        let atTerminalShift :=
          if canRenderPlainTail c then shouldRenderPlainTail c shift
          else ¬ (buildShiftedScientificText c (shift + 1) false).2
        (shift, false, (buildShiftedScientificText c shift atTerminalShift).1)

/-- `ResultDisplay._render_scientific`: run `renderCore` on the state and
store its results. -/
def renderScientific (st : DState) : DState :=
  let r := renderCore st.canon st.sciShift st.forceSciCurrentShift
  { st with sciShift := r.1, forceSciCurrentShift := r.2.1, text := r.2.2 }

/-- `ResultDisplay._maybe_request_more_scientific`; the boolean reports
whether a precision-expansion request was issued. -/
def maybeRequestMoreScientific (st : DState) (direction : Int) : DState × Bool :=
  if direction ≤ 0 then (st, false)
  else if st.precisionExhausted then (st, false)
  else if st.sciShift = 0 ∧ initialTextFitsVisibleWindow st.canon then (st, false)
  else if ¬ st.hasRequestCallback then (st, false)
  else if st.loadingMore then (st, false)
  else
    let neededIndex : Int := (st.sciShift : Int) + (sciFractionWindow : Int)
    let remaining : Int := (st.canon.digits.length : Int) - 1 - neededIndex
    if prefetchMargin < remaining then (st, false)
    else ({ st with loadingMore := true }, true)

/-- The `while candidate > 0 and candidate <= max_shift` probe loop of
`_advance_scientific`; returns the accepted candidate shift, or `none`
when the loop breaks or exhausts its candidates.  `fuel` bounds the
recursion and is called with more than `maxShift` so it never runs out
before `candidate > maxShift`. -/
def advanceCandidateLoop (c : Canon) (currentText : List Char)
    (curEdge : Option Nat) (curDot : Option Int) (maxShift : Nat) :
    Nat → Nat → Option Nat
  | _, 0 => none
  | candidate, fuel + 1 =>
    if candidate = 0 ∨ maxShift < candidate then none
    else
      let isFullWidth := (buildShiftedScientificText c candidate false).2
      let plainDecimal := shouldRenderPlainDecimalWindow c candidate
      let allowUnderfull := allowUnderfullProgress c candidate
      if isFullWidth ∨ plainDecimal ∨ shouldRenderPlainTail c candidate
          ∨ allowUnderfull then
        let breakNow :=
          if plainDecimal then
            let candEdge := plainDecimalRightEdge c candidate
            let candDot := plainDecimalDotPosition c candidate
            let bodyWidth := natMax1 (17 - (c.sign.length : Int))
            match curEdge, candEdge, curDot, candDot with
            | some ce, some cae, some cd, some cad =>
              cd < (bodyWidth : Int) ∧ cad < (bodyWidth : Int) ∧ cae ≤ ce
            | _, _, _, _ => false
          else false
        if breakNow then none
        else if previewScientificText c candidate ≠ currentText then
          some candidate
        else advanceCandidateLoop c currentText curEdge curDot maxShift
          (candidate + 1) fuel
      else advanceCandidateLoop c currentText curEdge curDot maxShift
        (candidate + 1) fuel

/-- `ResultDisplay._advance_scientific`; the boolean reports whether a
precision-expansion request was issued by the trailing
`_maybe_request_more_scientific`.  (In the early-return branch for a
fitting initial text no request check runs in the source; its request
check would refuse anyway because the shift is `0` and the text fits.) -/
def advanceScientific (st : DState) (direction : Int) : DState × Bool :=
  if 0 < direction ∧ st.sciShift = 0
      ∧ initialTextFitsVisibleWindow st.canon then
    (renderScientific st, false)
  else if 0 < direction then
    if isPlainDecimalDotStartState st.canon st.sciShift ∧
        (buildShiftedScientificText st.canon st.sciShift false).1 ≠ st.text then
      let st := renderScientific { st with forceSciCurrentShift := true }
      maybeRequestMoreScientific st direction
    else
      let virtual := virtualDigitsForShifting st.canon
      let maxShift := virtual.length - 1
      let candidate := min (st.sciShift + 1) maxShift
      let st' :=
        match advanceCandidateLoop st.canon st.text
            (plainDecimalRightEdge st.canon st.sciShift)
            (plainDecimalDotPosition st.canon st.sciShift)
            maxShift candidate (maxShift + 2) with
        | some c => { st with sciShift := c, forceSciCurrentShift := false }
        | none => st
      maybeRequestMoreScientific (renderScientific st') direction
  else if direction < 0 then
    let st' := { st with sciShift := st.sciShift - 1
                         forceSciCurrentShift := false }
    maybeRequestMoreScientific (renderScientific st') direction
  else
    maybeRequestMoreScientific (renderScientific st) direction

/-- `ResultDisplay._parse_scientific` (the anchored regular expression
`^([+-]?)(\d)(?:\.(\d+))?[eE]([+-]?\d+)$`, matched deterministically). -/
def parseScientific (text : List Char) : Option (List Char × List Char × Int) :=
  let t := trimChars text
  let signSplit : List Char × List Char :=
    match t with
    | c :: rest => if c = '+' ∨ c = '-' then ([c], rest) else ([], t)
    | [] => ([], t)
  let sign := signSplit.1
  match signSplit.2 with
  | [] => none
  | d :: t2 =>
    if ¬ pyIsDigit d then none
    else
      let fracSplit : Option (List Char × List Char) :=
        match t2 with
        | '.' :: t2' =>
          let frac := t2'.takeWhile pyIsDigit
          if frac = [] then none
          else some (frac, t2'.dropWhile pyIsDigit)
        | _ => some ([], t2)
      match fracSplit with
      | none => none
      | some (frac, t3) =>
        match t3 with
        | e :: t4 =>
          if e = 'e' ∨ e = 'E' then
            match parseSignedInt t4 with
            | some expo => some (sign, d :: frac, expo)
            | none => none
          else none
        | [] => none

/-- `ResultDisplay._parse_decimal_as_scientific` (the anchored regular
expression `^([+-]?)(?:(\d+)(?:\.(\d*))?|\.(\d+))$` plus the zero /
leading-zero normalisation). -/
def parseDecimalAsScientific (text : List Char) :
    Option (List Char × List Char × Int) :=
  let t := trimChars text
  let signSplit : List Char × List Char :=
    match t with
    | c :: rest => if c = '+' ∨ c = '-' then ([c], rest) else ([], t)
    | [] => ([], t)
  let sign := signSplit.1
  let parts : Option (List Char × List Char) :=
    match signSplit.2 with
    | [] => none
    | c :: rest =>
      if pyIsDigit c then
        let intPart := (c :: rest).takeWhile pyIsDigit
        match (c :: rest).dropWhile pyIsDigit with
        | [] => some (intPart, [])
        | '.' :: t2 =>
          let frac := t2.takeWhile pyIsDigit
          if t2.dropWhile pyIsDigit = [] then some (intPart, frac) else none
        | _ => none
      else if c = '.' then
        let frac := rest.takeWhile pyIsDigit
        if frac = [] then none
        else if rest.dropWhile pyIsDigit = [] then some (['0'], frac)
        else none
      else none
  match parts with
  | none => none
  | some (intPart, fracPart) =>
    if intPart.all (fun c => c = '0')
        ∧ (fracPart = [] ∨ fracPart.all (fun c => c = '0')) then
      some (sign, ['0'], 0)
    else
      match intPart.findIdx? (fun c => c ≠ '0') with
      | some i =>
        some (sign, intPart.drop i ++ fracPart,
          (intPart.length : Int) - (i : Int) - 1)
      | none =>
        match fracPart.findIdx? (fun c => c ≠ '0') with
        | none => some (sign, ['0'], 0)
        | some j => some (sign, fracPart.drop j, -((j : Int) + 1))

/-- `ResultDisplay.set_text`.  The non-scientific fallback (plain `Entry`
pixel scrolling) is outside the modelled scrolling core; it stores the
text and leaves scientific mode. -/
def setText (st : DState) (text : List Char) (preserveView : Bool) : DState :=
  let st :=
    if preserveView then st
    else { st with precisionExhausted := false, forceSciCurrentShift := false }
  match parseScientific text with
  | some (sign, digits, expo) =>
    let c0 : Canon := { sign := sign, digits := digits, exponent := expo
                        sourceKind := some .scientific, initialText := [] }
    let c : Canon := { c0 with initialText := formatInitialScientific c0 }
    renderScientific { st with
      sciMode := true
      canon := c
      sciShift := if preserveView then st.sciShift else 0 }
  | none =>
    match parseDecimalAsScientific text with
    | some (sign, digits, expo) =>
      let c : Canon := { sign := sign, digits := digits, exponent := expo
                         sourceKind := some .decimal, initialText := text }
      renderScientific { st with
        sciMode := true
        canon := c
        sciShift := if preserveView then st.sciShift else 0 }
    | none =>
      { st with sciMode := false
                canon := { st.canon with sourceKind := none }
                text := text }

/-! ## Scroll walks and concrete display states -/

/-- `n` forward scroll steps (`_advance_scientific(1)` each), as the
regression harness's `_walk` performs them. -/
def walkFwd (st : DState) : Nat → DState
  | 0 => st
  | n + 1 => walkFwd (advanceScientific st 1).1 n

/-- `n` backward scroll steps (`_advance_scientific(-1)` each). -/
def walkBack (st : DState) : Nat → DState
  | 0 => st
  | n + 1 => walkBack (advanceScientific st (-1)).1 n

/-- `math.factorial` / `mpmath.factorial` on a natural number (exact for
the integer arguments used here). -/
def fact : Nat → Nat
  | 0 => 1
  | n + 1 => (n + 1) * fact n

/-- Models the engine's `_format_result` output for a `ComputedValue` that
mpmath represents exactly and formats in scientific notation: the
significant digits of `n` (trailing zeros stripped, as `mp.nstr` does with
its default `strip_zeros`) rendered as `d.ddd…e±expo`.  Used only for
values whose magnitude and digit count fit far inside the configured
working precision, where `mp.nstr` performs no rounding, and whose
stripped mantissa has at least two digits (so the `".0e"` guard in
`_format_result` does not fire). -/
def sciTextOfMantissa (n : Nat) (expo : Int) : List Char :=
  match stripTrailingZeros (natRepr n) with
  | [] => ['0']
  | d :: rest => d :: '.' :: rest ++ 'e' :: intReprForced expo

/-- The display fed with the engine output for `evaluate("25^25/10^10")`:
the value is exactly `5^40/2^10` (binary-exact in mpmath), whose 35
significant digits are those of `25^25` and whose decimal exponent is
`24`; the engine formats it scientifically since `24 ≥ 12`. -/
def d25 : DState :=
  setText initDisplay (sciTextOfMantissa (25 ^ 25) 24) false

/-- The display fed with the engine output for `evaluate("40!")`: the
value is exactly `40!` (an integer of 48 digits, ≥ 1e18, so the engine
formats it scientifically with exponent 47 and the 9 trailing zeros
stripped from the mantissa). -/
def d40 : DState :=
  setText initDisplay (sciTextOfMantissa (fact 40) ((natRepr (fact 40)).length - 1)) false

/-- The display fed with the engine output for `evaluate("3*10^-30")`:
`mp.nstr` at the default 18 working digits rounds the binary value to
`3e-30` (`.0e` handling in `_format_result` keeps the mantissa `3`). -/
def d3e30 : DState :=
  setText initDisplay "3e-30".toList false

/-- The display fed with a long plain-decimal engine output of the
`5/7`-family (a decimal `0.714285…` with more digits than the window). -/
def d57 : DState :=
  setText initDisplay "0.71428571428571428571428571428571".toList false

/-- The display fed with a scientific engine output whose exponent sits at
the `e-99` / `e-100` digit-count boundary (for example
`evaluate("1.2345678901234567890123456789012345*10^-76")`). -/
def dJump : DState :=
  setText initDisplay "1.2345678901234567890123456789012345e-76".toList false

/-! ## Claim C5 — chained postfix factorial -/

/-- C5: the claim states that preprocessing rewrites every postfix `!`,
including chains, so that `"3!!"` becomes `factorial(factorial(3))` and
evaluates without a syntax error.  The code's right-to-left scan skips a
`!` whose left neighbour is another `!` (none of the three operand
branches applies), and after rewriting the inner factorial the scan
resumes to the *left* of the splice, so the outer `!` is never revisited:
`"3!!"` preprocesses to `factorial(3)!`, whose stray `!` is a Python
syntax error at evaluation.  Single factorials are rewritten as the spec
describes. -/
theorem replaceFactorial_chain_bug :
    replaceFactorial "3!!".toList = "factorial(3)!".toList
      ∧ replaceFactorial "3!!".toList ≠ "factorial(factorial(3))".toList
      ∧ '!' ∈ replaceFactorial "3!!".toList
      ∧ replaceFactorial "3!".toList = "factorial(3)".toList
      ∧ replaceFactorial "(2+3)!".toList = "factorial((2+3))".toList
      ∧ replaceFactorial "5.5!".toList = "factorial(5.5)".toList
      ∧ replaceFactorial "e!".toList = "factorial(e)".toList := by
  decide

/-! ## Claim C8 — percent expansion -/

/-- C8 counterexample: the group substitution pattern `(\([^()]+\))%`
cannot match a group whose interior contains parentheses, so the claim's
example `"((1+2))%"` is left unchanged — its `%` survives preprocessing. -/
theorem replacePercentage_nested_counterexample :
    replacePercentage "((1+2))%".toList = "((1+2))%".toList
      ∧ '%' ∈ replacePercentage "((1+2))%".toList := by
  decide

/-- C8 (amended): preprocessing replaces every numeric literal
immediately followed by `%` with `(literal*0.01)` in one left-to-right
pass, and replaces percent-suffixed parenthesized groups with
parenthesis-free interiors with `(group*0.01)`, repeated until no such
group remains (the fixed point is always reached); groups with nested
parentheses are not replaced. -/
theorem replacePercentage_amended :
    replacePercentage "50%".toList = "(50*0.01)".toList
      ∧ replacePercentage "(1+2)%".toList = "((1+2)*0.01)".toList
      ∧ replacePercentage "1.2e5%".toList = "(1.2e5*0.01)".toList
      ∧ replacePercentage "5%%".toList = "((5*0.01)*0.01)".toList
      ∧ ∀ l : List Char,
          subGroupPercent (replacePercentage l) = replacePercentage l := by
  refine ⟨by decide, by decide, by decide, by decide, ?_⟩
  exact replacePercentage_fixed

/-! ## Claim C7 — request_more_precision legality and recomputation -/

/-- A raw evaluator that always reports a syntax error (as the sandboxed
`eval` does on a malformed expression, at every precision). -/
def rawEvalSyntaxError : String → Nat → Except EngineError Int :=
  fun _ _ => .error .syntaxError

/-- A raw evaluator that always succeeds with a fixed value. -/
def rawEvalConst : String → Nat → Except EngineError Int :=
  fun _ _ => .ok 0

/-- A trivial formatter. -/
def fmtConst : Int → Nat → String := fun _ _ => "0"

/-- C7 counterexample: after `evaluate("")` the engine is *not* Idle — a
prior evaluate happened, the empty expression is stored and
`can_expand_precision()` returns `True` — yet `request_more_precision()`
still raises `InvalidStateError`, because `if not self._last_expression`
is also taken for the stored empty string. -/
theorem requestMore_empty_string_counterexample :
    ((((Engine.init Int 18 24).evaluate rawEvalConst fmtConst "").1).requestMorePrecision
        rawEvalConst fmtConst).2 = .error .invalidState
      ∧ (((Engine.init Int 18 24).evaluate rawEvalConst fmtConst "").1).lastExpression
          = some ""
      ∧ (((Engine.init Int 18 24).evaluate rawEvalConst fmtConst "").1).canExpandPrecision
          = true := by
  exact ⟨rfl, rfl, rfl⟩

/-- Unfolding of `request_more_precision` for a stored non-empty
expression. -/
theorem requestMore_some_ne {V : Type}
    (rawEval : String → Nat → Except EngineError V) (fmt : V → Nat → String)
    (eng : Engine V) (e : String)
    (heq : eng.lastExpression = some e) (he : e ≠ "") :
    eng.requestMorePrecision rawEval fmt
      = (match evaluateWithDigits rawEval e (eng.workingDigits + eng.precisionStep) with
         | .ok v =>
           ({ eng with workingDigits := eng.workingDigits + eng.precisionStep
                       lastValue := some v },
            .ok (fmt v (eng.workingDigits + eng.precisionStep)))
         | .error err =>
           ({ eng with workingDigits := eng.workingDigits + eng.precisionStep },
            .error err)) := by
  rw [Engine.requestMorePrecision, heq]
  simp only [he, if_neg, if_false]

/-- C7 (amended): `request_more_precision()` raises `InvalidStateError`
exactly when no expression is stored *or* the stored expression is the
empty string; otherwise it increases the working digit count by the fixed
precision step and recomputes by fully re-evaluating the stored original
expression from scratch at the internal guard precision
`max(40, 2·workingDigits+10)` — never by refining the previous value (the
outcome is independent of `lastValue`).  The hypothesis `hraw` records
that the evaluation path never raises the invalid-state error (in the
source it raises `ValueError` with different messages). -/
theorem requestMore_amended {V : Type}
    (rawEval : String → Nat → Except EngineError V) (fmt : V → Nat → String)
    (eng : Engine V)
    (hraw : ∀ e d, rawEval e d ≠ .error .invalidState) :
    (((eng.requestMorePrecision rawEval fmt).2 = .error .invalidState)
        ↔ (eng.lastExpression = none ∨ eng.lastExpression = some ""))
      ∧ (∀ e, eng.lastExpression = some e → e ≠ "" →
          (eng.requestMorePrecision rawEval fmt).1.workingDigits
              = eng.workingDigits + eng.precisionStep
            ∧ (eng.requestMorePrecision rawEval fmt).2
                = (match evaluateWithDigits rawEval e
                      (eng.workingDigits + eng.precisionStep) with
                   | .ok v => .ok (fmt v (eng.workingDigits + eng.precisionStep))
                   | .error err => .error err)
            ∧ ∀ v' : Option V,
                (({ eng with lastValue := v' }).requestMorePrecision rawEval fmt).2
                  = (eng.requestMorePrecision rawEval fmt).2) := by
  constructor
  · match heq : eng.lastExpression with
    | none =>
      constructor
      · intro _; exact Or.inl rfl
      · intro _; rw [Engine.requestMorePrecision, heq]
    | some e =>
      by_cases he : e = ""
      · subst he
        constructor
        · intro _; exact Or.inr rfl
        · intro _
          rw [Engine.requestMorePrecision, heq]
          simp
      · constructor
        · intro h
          exfalso
          rw [requestMore_some_ne rawEval fmt eng e heq he] at h
          revert h
          cases hev : evaluateWithDigits rawEval e (eng.workingDigits + eng.precisionStep) with
          | ok v => intro h; simp at h
          | error err =>
            intro h
            simp only [Except.error.injEq] at h
            subst h
            rw [evaluateWithDigits] at hev
            split at hev
            · exact absurd hev (by simp)
            · exact hraw _ _ hev
        · intro h
          rcases h with h | h
          · exact absurd h (by simp)
          · simp only [Option.some.injEq] at h
            exact absurd h he
  · intro e heq he
    rw [requestMore_some_ne rawEval fmt eng e heq he]
    have hv : ∀ v' : Option V,
        ({ eng with lastValue := v' } : Engine V).requestMorePrecision rawEval fmt
          = (match evaluateWithDigits rawEval e (eng.workingDigits + eng.precisionStep) with
             | .ok v =>
               ({ eng with workingDigits := eng.workingDigits + eng.precisionStep
                           lastValue := some v },
                .ok (fmt v (eng.workingDigits + eng.precisionStep)))
             | .error err =>
               ({ eng with workingDigits := eng.workingDigits + eng.precisionStep
                           lastValue := v' },
                .error err)) := by
      intro v'
      rw [requestMore_some_ne rawEval fmt ({ eng with lastValue := v' } : Engine V) e
        (show ({ eng with lastValue := v' } : Engine V).lastExpression = some e from heq) he]
    refine ⟨?_, ?_, ?_⟩
    · cases evaluateWithDigits rawEval e (eng.workingDigits + eng.precisionStep) <;> rfl
    · cases evaluateWithDigits rawEval e (eng.workingDigits + eng.precisionStep) <;> rfl
    · intro v'
      rw [hv v']
      cases evaluateWithDigits rawEval e (eng.workingDigits + eng.precisionStep) <;> rfl

/-- Witness for `requestMore_amended` at a concrete engine that evaluated
`"1+"` (a syntax error) and at a concrete non-empty expression. -/
theorem requestMore_amended_witness :
    ((((Engine.init Int 18 24).evaluate rawEvalSyntaxError fmtConst "1+").1
        |>.requestMorePrecision rawEvalSyntaxError fmtConst).2
          = .error .invalidState
      ↔ ((((Engine.init Int 18 24).evaluate rawEvalSyntaxError fmtConst "1+").1).lastExpression = none
        ∨ (((Engine.init Int 18 24).evaluate rawEvalSyntaxError fmtConst "1+").1).lastExpression = some "")) := by
  exact (requestMore_amended rawEvalSyntaxError fmtConst _
    (fun e d => by simp [rawEvalSyntaxError])).1

/-! ## Claim C10 — state mutation on failed evaluate -/

/-- C10: `evaluate(e)` stores `e` and resets the working digit count
*before* evaluation runs, so when evaluation fails for a non-empty `e`
the engine state is still mutated: `can_expand_precision()` returns
`True` and a subsequent `request_more_precision()` does not raise
`InvalidStateError` but re-evaluates the failing expression at increased
precision, raising the same evaluation error again. -/
theorem evaluate_failure_mutates_state {V : Type}
    (rawEval : String → Nat → Except EngineError V) (fmt : V → Nat → String)
    (eng0 : Engine V) (e : String) (err : EngineError)
    (he : e ≠ "")
    (herr : ∀ d, evaluateWithDigits rawEval e d = .error err)
    (hne : err ≠ .invalidState) :
    ((eng0.evaluate rawEval fmt e).2 = .error err)
      ∧ ((eng0.evaluate rawEval fmt e).1.lastExpression = some e)
      ∧ ((eng0.evaluate rawEval fmt e).1.workingDigits = eng0.initialDigits)
      ∧ ((eng0.evaluate rawEval fmt e).1.canExpandPrecision = true)
      ∧ (((eng0.evaluate rawEval fmt e).1.requestMorePrecision rawEval fmt).2
          = .error err)
      ∧ (((eng0.evaluate rawEval fmt e).1.requestMorePrecision rawEval fmt).2
          ≠ .error .invalidState)
      ∧ (((eng0.evaluate rawEval fmt e).1.requestMorePrecision rawEval fmt).1.workingDigits
          = eng0.initialDigits + eng0.precisionStep) := by
  have heval : eng0.evaluate rawEval fmt e
      = ({ eng0 with lastExpression := some e, workingDigits := eng0.initialDigits },
         .error err) := by
    rw [Engine.evaluate]
    simp only [herr]
  rw [heval]
  have hreq := requestMore_some_ne rawEval fmt
    ({ eng0 with lastExpression := some e, workingDigits := eng0.initialDigits })
    e rfl he
  rw [hreq]
  simp only [herr]
  simp [Engine.canExpandPrecision, hne]

/-- Witness for `evaluate_failure_mutates_state` at the always-failing
raw evaluator and the concrete expression `"3**"`. -/
theorem evaluate_failure_mutates_state_witness :
    (((Engine.init Int 18 24).evaluate rawEvalSyntaxError fmtConst "3**").2
        = .error .syntaxError)
      ∧ (((Engine.init Int 18 24).evaluate rawEvalSyntaxError fmtConst "3**").1.canExpandPrecision
        = true) := by
  have h := evaluate_failure_mutates_state rawEvalSyntaxError fmtConst
    (Engine.init Int 18 24) "3**" .syntaxError (by decide)
    (fun d => by
      rw [evaluateWithDigits]
      rw [if_neg (by decide)]
      rfl)
    (by intro hcon; exact absurd hcon (by decide))
  exact ⟨h.1, h.2.2.2.1⟩

/-! ## Rendering helper lemmas -/

/-- The text `_render_scientific` stores at shift `0`: `"0"` for an empty
digit string, the initial visible text otherwise. -/
def canonInitialText (c : Canon) : List Char :=
  if c.digits = [] then ['0'] else initialVisibleText c

/-- The shift clamp never increases the shift. -/
theorem clampToFullWidth_le (c : Canon) : ∀ s, clampToFullWidth c s ≤ s
  | 0 => le_refl 0
  | s + 1 => by
    rw [clampToFullWidth]
    split
    · exact le_refl _
    · exact le_trans (clampToFullWidth_le c s) (Nat.le_succ s)

/-- At shift `0` the render body returns shift `0`, the untouched force
flag and the initial text, whatever the force flag and history. -/
theorem renderCore_zero (c : Canon) (f : Bool) :
    renderCore c 0 f = (0, f, canonInitialText c) := by
  rw [renderCore, canonInitialText]
  by_cases hd : c.digits = []
  · rw [if_pos hd, if_pos hd]
  · rw [if_neg hd, if_neg hd]
    simp [clampToFullWidth]

/-- The render body never increases the shift. -/
theorem renderCore_shift_le (c : Canon) (s : Nat) (f : Bool) :
    (renderCore c s f).1 ≤ s := by
  have hcl := clampToFullWidth_le c s
  simp only [renderCore]
  split_ifs <;>
    first
      | exact le_refl s
      | exact hcl
      | (split <;> first | exact le_refl s | exact hcl)

/-- If the render body lands at shift `0`, the text it stores is the
initial text. -/
theorem renderCore_text_of_shift_zero (c : Canon) (s : Nat) (f : Bool)
    (h : (renderCore c s f).1 = 0) :
    (renderCore c s f).2.2 = canonInitialText c := by
  rw [canonInitialText]
  by_cases hd : c.digits = []
  · simp only [renderCore, if_pos hd]
  · simp only [renderCore, if_neg hd] at h ⊢
    split_ifs at h ⊢ <;> try rfl
    all_goals split at h <;> simp_all

/-- `_render_scientific` changes no attribute other than the shift, the
force flag and the text. -/
theorem renderScientific_frame (st : DState) :
    (renderScientific st).canon = st.canon
      ∧ (renderScientific st).precisionExhausted = st.precisionExhausted
      ∧ (renderScientific st).loadingMore = st.loadingMore := ⟨rfl, rfl, rfl⟩

/-- `_maybe_request_more` with a non-positive direction does nothing. -/
theorem maybeRequest_nonpos (st : DState) (d : Int) (h : d ≤ 0) :
    maybeRequestMoreScientific st d = (st, false) := by
  rw [maybeRequestMoreScientific, if_pos h]

/-- `_maybe_request_more` with the precision-exhausted flag set does
nothing. -/
theorem maybeRequest_exhausted (st : DState) (d : Int)
    (h : st.precisionExhausted = true) :
    maybeRequestMoreScientific st d = (st, false) := by
  rw [maybeRequestMoreScientific]
  by_cases hd : d ≤ 0
  · rw [if_pos hd]
  · rw [if_neg hd, if_pos h]

/-- `_maybe_request_more` only ever flips the loading flag: the canon, the
shift, the text and the exhausted flag are untouched. -/
theorem maybeRequest_frame (st : DState) (d : Int) :
    (maybeRequestMoreScientific st d).1.canon = st.canon
      ∧ (maybeRequestMoreScientific st d).1.sciShift = st.sciShift
      ∧ (maybeRequestMoreScientific st d).1.text = st.text
      ∧ (maybeRequestMoreScientific st d).1.precisionExhausted
          = st.precisionExhausted := by
  simp only [maybeRequestMoreScientific]
  split_ifs <;> exact ⟨rfl, rfl, rfl, rfl⟩

/-- A scroll step never changes the canonical form. -/
theorem advanceScientific_canon (st : DState) (d : Int) :
    (advanceScientific st d).1.canon = st.canon := by
  have hm : ∀ r : Option Nat,
      (match r with
       | some c => { st with sciShift := c, forceSciCurrentShift := false }
       | none => st).canon = st.canon := by
    intro r; cases r <;> rfl
  simp only [advanceScientific]
  split_ifs
  · exact (renderScientific_frame st).1
  · rw [(maybeRequest_frame _ _).1]; exact (renderScientific_frame _).1
  · rw [(maybeRequest_frame _ _).1, (renderScientific_frame _).1]
    exact hm _
  · rw [(maybeRequest_frame _ _).1]; exact (renderScientific_frame _).1
  · rw [(maybeRequest_frame _ _).1]; exact (renderScientific_frame _).1

/-- A forward walk never changes the canonical form. -/
theorem walkFwd_canon (n : Nat) : ∀ st : DState,
    (walkFwd st n).canon = st.canon := by
  induction n with
  | zero => intro st; rfl
  | succ m ih =>
    intro st
    rw [walkFwd, ih, advanceScientific_canon]

/-! ## Claim C3 — purity of rendering -/

/-- C3 counterexample: two scroll histories on the same canonical form
(one forward step versus two forward steps over the long plain decimal
`0.71428571428571428571428571428571`) arrive at the *same* shift `1` but
display different text: the second step flips the transient
force-scientific flag, so the rendering at a given `(CanonicalForm, shift)`
pair depends on scroll history. -/
theorem render_history_dependence_counterexample :
    (walkFwd d57 1).canon = (walkFwd d57 2).canon
      ∧ (walkFwd d57 1).sciShift = 1
      ∧ (walkFwd d57 2).sciShift = 1
      ∧ (walkFwd d57 1).text = "….7142857142857142".toList
      ∧ (walkFwd d57 2).text = "…7142857142857e-13".toList
      ∧ (walkFwd d57 1).text ≠ (walkFwd d57 2).text := by
  decide

/-- C3 (amended): rendering is a pure function of the triple
`(CanonicalForm, shift, force-scientific flag)` — two states agreeing on
those three attributes render identical text and land at identical shifts
— and at shift `0` rendering is deterministic and independent of the
force flag (hence of prior scroll history): it always stores the initial
text. -/
theorem render_pure_of_canon_shift_force (s1 s2 : DState)
    (hc : s1.canon = s2.canon) (hs : s1.sciShift = s2.sciShift)
    (hf : s1.forceSciCurrentShift = s2.forceSciCurrentShift) :
    ((renderScientific s1).text = (renderScientific s2).text
        ∧ (renderScientific s1).sciShift = (renderScientific s2).sciShift)
      ∧ ∀ (c : Canon) (f1 f2 : Bool),
          (renderCore c 0 f1).2.2 = (renderCore c 0 f2).2.2
            ∧ (renderCore c 0 f1).2.2 = canonInitialText c := by
  refine ⟨⟨?_, ?_⟩, ?_⟩
  · show (renderCore s1.canon s1.sciShift s1.forceSciCurrentShift).2.2
        = (renderCore s2.canon s2.sciShift s2.forceSciCurrentShift).2.2
    rw [hc, hs, hf]
  · show (renderCore s1.canon s1.sciShift s1.forceSciCurrentShift).1
        = (renderCore s2.canon s2.sciShift s2.forceSciCurrentShift).1
    rw [hc, hs, hf]
  · intro c f1 f2
    rw [renderCore_zero, renderCore_zero]
    exact ⟨rfl, rfl⟩

/-- Witness for `render_pure_of_canon_shift_force`: two distinct states
sharing the canon, shift and force flag of the long-decimal display (their
histories differ in the loading flag) render the same text. -/
theorem render_pure_witness :
    (renderScientific { d57 with loadingMore := true }).text
      = (renderScientific d57).text := by
  exact ((render_pure_of_canon_shift_force
    { d57 with loadingMore := true } d57 rfl rfl rfl).1).1

/-! ## Claim C4 — forward/backward symmetry -/

/-- A backward scroll step (`_advance_scientific(-1)`): decrement the
shift, drop the force flag, re-render; no request is issued. -/
theorem advanceScientific_neg (st : DState) :
    advanceScientific st (-1)
      = (renderScientific { st with sciShift := st.sciShift - 1
                                    forceSciCurrentShift := false }, false) := by
  rw [advanceScientific]
  rw [if_neg (by intro h; exact absurd h.1 (by norm_num)),
    if_neg (by norm_num), if_pos (by norm_num)]
  exact maybeRequest_nonpos _ _ (by norm_num)

/-- A backward step lowers the shift by at least one (clamped at `0`) and
keeps the canon. -/
theorem advance_neg_step (st : DState) :
    (advanceScientific st (-1)).1.sciShift ≤ st.sciShift - 1
      ∧ (advanceScientific st (-1)).1.canon = st.canon := by
  rw [advanceScientific_neg]
  exact ⟨renderCore_shift_le _ _ _, rfl⟩

/-- `n` backward steps from a shift at most `n` land at shift `0` showing
the initial text. -/
theorem walkBack_zeroes (n : Nat) : ∀ st : DState, 1 ≤ n → st.sciShift ≤ n →
    (walkBack st n).sciShift = 0
      ∧ (walkBack st n).text = canonInitialText st.canon
      ∧ (walkBack st n).canon = st.canon := by
  induction n with
  | zero => intro st h; exact absurd h (by decide)
  | succ m ih =>
    intro st _ hle
    have hstep := advance_neg_step st
    have hsh : (advanceScientific st (-1)).1.sciShift ≤ m :=
      le_trans hstep.1 (by omega)
    match m, ih with
    | 0, _ =>
      have hz : (advanceScientific st (-1)).1.sciShift = 0 :=
        Nat.le_zero.mp hsh
      rw [walkBack, walkBack]
      refine ⟨hz, ?_, hstep.2⟩
      rw [advanceScientific_neg] at hz ⊢
      exact renderCore_text_of_shift_zero st.canon (st.sciShift - 1) false hz
    | k + 1, ih =>
      have h := ih (advanceScientific st (-1)).1 (by omega) hsh
      rw [walkBack]
      exact ⟨h.1, by rw [h.2.1, hstep.2], by rw [h.2.2, hstep.2]⟩

set_option maxRecDepth 400000 in
/-- C4 counterexample: on the scientific value
`1.2345678901234567890123456789012345e-76` the twelfth forward step jumps
the shift from `11` to `13` (the probe at shift `12` renders underfull at
the `e-99`/`e-100` exponent-width boundary), and the next backward step
lands at shift `11`: a backward step does not always decrement the shift
by exactly one. -/
theorem backward_decrement_counterexample :
    (walkFwd dJump 11).sciShift = 11
      ∧ (walkFwd dJump 12).sciShift = 13
      ∧ (walkBack (walkFwd dJump 12) 1).sciShift = 11 := by
  decide

/-- C4 (amended): a backward step decrements the shift by *at least* one,
clamped at `0` (the re-render may clamp further); starting from the
initial rendering, `N` forward steps followed by `N` backward steps
reproduce the initial rendering byte-for-byte whenever the forward walk's
final shift did not exceed `N` (forward probing can jump past underfull
shifts, so the final shift can exceed the step count). -/
theorem scroll_symmetry_amended (st : DState) (N : Nat)
    (h0 : st.sciShift = 0) (ht : st.text = canonInitialText st.canon)
    (hN : 1 ≤ N) (hs : (walkFwd st N).sciShift ≤ N) :
    ((walkBack (walkFwd st N) N).text = st.text
        ∧ (walkBack (walkFwd st N) N).sciShift = st.sciShift)
      ∧ ∀ s : DState, (advanceScientific s (-1)).1.sciShift ≤ s.sciShift - 1 := by
  have h := walkBack_zeroes N (walkFwd st N) hN hs
  refine ⟨⟨?_, ?_⟩, fun s => (advance_neg_step s).1⟩
  · rw [h.2.1, walkFwd_canon, ← ht]
  · rw [h.1, h0]

/-- Witness for `scroll_symmetry_amended`: three forward and three
backward steps on the long plain decimal reproduce its initial
rendering. -/
theorem scroll_symmetry_amended_witness :
    (walkBack (walkFwd d57 3) 3).text = d57.text
      ∧ (walkBack (walkFwd d57 3) 3).sciShift = d57.sciShift := by
  exact (scroll_symmetry_amended d57 3 (by decide) (by decide) (by decide)
    (by decide)).1

/-! ## Claim C6 — precision exhaustion is terminal -/

/-- The fields of `CalculatorApp` that the precision-expansion flow reads
and writes: the result display and `_last_engine_result`. -/
structure AppState where
  display : DState
  lastEngineResult : Option (List Char)
deriving DecidableEq, Repr

/-- The completion path of `CalculatorApp._request_more_precision` once
the engine call returned `updated`: if a previous result exists and the
new one equals it, `mark_precision_exhausted` and return; otherwise store
the new result and `set_text(updated, preserve_view=True)`;
`finish_loading_more` runs in the `finally` block either way. -/
def onExpansionComplete (app : AppState) (updated : List Char) : AppState :=
  if app.lastEngineResult = some updated then
    { app with display := { app.display with precisionExhausted := true
                                             loadingMore := false } }
  else
    { display := { setText app.display updated true with loadingMore := false }
      lastEngineResult := some updated }

/-- A sequence of scroll steps (`_scroll_unit` in scientific mode, each an
`_advance_scientific(direction)`), paired with whether any step issued a
precision-expansion request. -/
def scrollRun (st : DState) : List Int → DState × Bool
  | [] => (st, false)
  | d :: ds =>
    let r := advanceScientific st d
    let rest := scrollRun r.1 ds
    (rest.1, r.2 || rest.2)

/-- Request check after a re-render of an exhausted state: no request, no
change. -/
theorem maybeRequest_render_exhausted (st : DState) (d : Int)
    (h : st.precisionExhausted = true) :
    (maybeRequestMoreScientific (renderScientific st) d).1.precisionExhausted
        = true
      ∧ (maybeRequestMoreScientific (renderScientific st) d).2 = false := by
  have h' : (renderScientific st).precisionExhausted = true := h
  rw [maybeRequest_exhausted _ _ h']
  exact ⟨h', rfl⟩

/-- With the precision-exhausted flag set, a scroll step issues no request
and preserves the flag. -/
theorem advance_exhausted (st : DState) (d : Int)
    (h : st.precisionExhausted = true) :
    (advanceScientific st d).1.precisionExhausted = true
      ∧ (advanceScientific st d).2 = false := by
  simp only [advanceScientific]
  split_ifs
  · exact ⟨h, rfl⟩
  · exact maybeRequest_render_exhausted _ _ h
  · split
    · exact maybeRequest_render_exhausted _ _ h
    · exact maybeRequest_render_exhausted _ _ h
  · exact maybeRequest_render_exhausted _ _ h
  · exact maybeRequest_render_exhausted _ _ h

/-- With the precision-exhausted flag set, a whole scroll run issues no
request and preserves the flag. -/
theorem scrollRun_exhausted (ds : List Int) : ∀ st : DState,
    st.precisionExhausted = true →
    (scrollRun st ds).2 = false
      ∧ (scrollRun st ds).1.precisionExhausted = true := by
  induction ds with
  | nil => intro st h; exact ⟨rfl, h⟩
  | cons d ds ih =>
    intro st h
    have ha := advance_exhausted st d h
    have hrest := ih _ ha.1
    rw [scrollRun]
    exact ⟨by simp [ha.2, hrest.1], hrest.2⟩

/-- Displaying a new result (`set_text` with `preserve_view=False`)
clears the precision-exhausted flag. -/
theorem setText_new_result_clears (st : DState) (t : List Char) :
    (setText st t false).precisionExhausted = false := by
  simp only [setText, Bool.false_eq_true, if_false]
  split
  · rfl
  · split
    · rfl
    · rfl

/-- C6: once an expansion request completes with a result identical to the
stored previous one, the precision-exhausted flag is set, and *every*
subsequent sequence of scroll steps issues no further expansion request
and preserves the flag; displaying a new result (`set_text` without
`preserve_view`) clears the flag again. -/
theorem precision_exhaustion_never_again (app : AppState) (updated : List Char)
    (h : app.lastEngineResult = some updated) :
    (onExpansionComplete app updated).display.precisionExhausted = true
      ∧ (∀ ds : List Int,
          (scrollRun (onExpansionComplete app updated).display ds).2 = false
            ∧ (scrollRun (onExpansionComplete app updated).display
                ds).1.precisionExhausted = true)
      ∧ ∀ (st : DState) (t : List Char),
          (setText st t false).precisionExhausted = false := by
  have hset : (onExpansionComplete app updated).display.precisionExhausted
      = true := by
    rw [onExpansionComplete, if_pos h]
  exact ⟨hset, fun ds => scrollRun_exhausted ds _ hset,
    setText_new_result_clears⟩

/-- Witness for `precision_exhaustion_never_again`: a concrete application
state whose stored engine result recurs verbatim. -/
theorem precision_exhaustion_witness :
    (onExpansionComplete
        { display := d57, lastEngineResult := some "0.5".toList }
        "0.5".toList).display.precisionExhausted = true
      ∧ (scrollRun (onExpansionComplete
          { display := d57, lastEngineResult := some "0.5".toList }
          "0.5".toList).display [1, 1, -1]).2 = false := by
  have h := precision_exhaustion_never_again
    { display := d57, lastEngineResult := some "0.5".toList }
    "0.5".toList rfl
  exact ⟨h.1, (h.2.1 [1, 1, -1]).1⟩

/-! ## Claim C9 — concrete terminal renderings -/

set_option maxRecDepth 400000 in
/-- C9: the display fed with the engine's output for `25^25/10^10`
(`8.88178419700e+24` with canonical digits `25^25` and exponent `24`)
scrolls forward to a terminal state at shift `19` rendering exactly
`…389053.3447265625`, and the one fed with the output for `40!`
(`8.15915283247e+47`) scrolls to a terminal state at shift `25` rendering
exactly `…69596115894272e+9`; both terminal states are fixpoints of the
forward step, so further forward scrolls change nothing at all. -/
theorem terminal_scroll_renders :
    (walkFwd d25 19).text = "…389053.3447265625".toList
      ∧ (walkFwd d40 25).text = "…69596115894272e+9".toList
      ∧ (∀ k, walkFwd (walkFwd d25 19) k = walkFwd d25 19)
      ∧ (∀ k, walkFwd (walkFwd d40 25) k = walkFwd d40 25) := by
  have hfix : ∀ st : DState, (advanceScientific st 1).1 = st →
      ∀ k, walkFwd st k = st := by
    intro st hst k
    induction k with
    | zero => rfl
    | succ m ihm => rw [walkFwd, hst]; exact ihm
  exact ⟨by decide, by decide, hfix _ (by decide), hfix _ (by decide)⟩

/-! ## Claim C1 — copy operations

The regression harness calls `ResultDisplay.get_copy_text()` /
`get_copy_text(plain_decimal=True)`, but no such method exists in
`src/calculator_ui.py` (the shipped `_copy_result` only uses `get_text`):
the copy operations are code of the repository missing from `src/`, so
they are modelled from the spec below. -/

/-- Modelled from the spec: the verbatim copy — the currently rendered
text with the ellipsis marker removed. -/
def getCopyText (st : DState) : List Char :=
  st.text.filter (fun ch => ch ≠ '…')

/-- Modelled from the spec: the plain-decimal writing of the value
`0.digits × 10^(exponent+1)` — equivalently `digits × 10^(exponent-len+1)`
— built directly from the digit string and the exponent: trailing zeros
appended for an integer value, a dot inserted after `exponent+1` digits
for a value with integer and fraction parts, and `0.` plus
`-exponent - 1` leading zeros for a purely fractional value. -/
def plainDecimalCore (d : List Char) (e : Int) : List Char :=
  if e < 0 then
    '0' :: '.' :: (List.replicate (-e - 1).toNat '0' ++ d)
  else if (d.length : Int) - 1 ≤ e then
    d ++ List.replicate (e - ((d.length : Int) - 1)).toNat '0'
  else
    d.take (e + 1).toNat ++ '.' :: d.drop (e + 1).toNat

/-- Modelled from the spec: the exact-plain-decimal copy reconstructs
sign + digits + exponent directly from the `CanonicalForm`, never from the
windowed text. -/
def plainDecimalOfCanon (c : Canon) : List Char :=
  if c.digits = [] then ['0']
  else c.sign ++ plainDecimalCore c.digits c.exponent

/-- Modelled from the spec: the exact-plain-decimal copy of the currently
displayed result (falling back to the verbatim copy outside scientific
mode). -/
def getCopyTextPlainDecimal (st : DState) : List Char :=
  if st.sciMode then plainDecimalOfCanon st.canon else getCopyText st

/-- Numeric value of a digit string, most significant digit first (the
reading under which the canonical form denotes
`digits × 10^(exponent - len + 1)`). -/
def digitsVal (l : List Char) : Nat :=
  l.foldl (fun a c => a * 10 + (c.toNat - 48)) 0

/-- Exact rational value denoted by a canonical form. -/
def canonVal (c : Canon) : ℚ :=
  (if c.sign = ['-'] then (-1 : ℚ) else 1) * (digitsVal c.digits : ℚ)
    * (10 : ℚ) ^ (c.exponent - ((c.digits.length : Int) - 1))

/-- Exact rational value denoted by an unsigned plain-decimal string
(integer part, optional dot, fraction part). -/
def decimalTextValUnsigned (t : List Char) : ℚ :=
  let rest := t.dropWhile (fun ch => ch != '.')
  if rest = [] then (digitsVal t : ℚ)
  else (digitsVal (t.takeWhile (fun ch => ch != '.')) : ℚ)
    + (digitsVal rest.tail : ℚ) / (10 : ℚ) ^ rest.tail.length

/-- Exact rational value denoted by a plain-decimal string with an
optional leading minus sign. -/
def decimalTextVal (t : List Char) : ℚ :=
  if t.head? = some '-' then -(decimalTextValUnsigned t.tail)
  else decimalTextValUnsigned t

theorem digitsVal_foldl (l : List Char) : ∀ init : Nat,
    l.foldl (fun a c => a * 10 + (c.toNat - 48)) init
      = init * 10 ^ l.length + digitsVal l := by
  induction l with
  | nil => intro init; simp [digitsVal]
  | cons c t ih =>
    intro init
    have h1 := ih (init * 10 + (c.toNat - 48))
    have h2 := ih (0 * 10 + (c.toNat - 48))
    simp only [List.foldl, digitsVal, List.length_cons] at h1 h2 ⊢
    rw [h1, h2]
    ring

theorem digitsVal_append (a b : List Char) :
    digitsVal (a ++ b) = digitsVal a * 10 ^ b.length + digitsVal b := by
  rw [digitsVal, List.foldl_append]
  exact digitsVal_foldl b _

theorem digitsVal_replicate_zero (k : Nat) :
    digitsVal (List.replicate k '0') = 0 := by
  induction k with
  | zero => rfl
  | succ m ih =>
    rw [List.replicate_succ]
    have h0 : 0 * 10 + ('0'.toNat - 48) = 0 := by decide
    simp only [digitsVal, List.foldl, h0] at ih ⊢
    exact ih

/-- A decimal digit character is neither the dot nor the minus sign. -/
theorem isDigit_ne (ch : Char) (h : ch.isDigit = true) :
    ch ≠ '.' ∧ ch ≠ '-' := by
  constructor <;> intro he <;> subst he <;> exact absurd h (by decide)

/-- `takeWhile`/`dropWhile` at the dot of a dotted decimal string. -/
theorem splitAtDot (a b : List Char) (ha : ∀ x ∈ a, x ≠ '.') :
    (a ++ '.' :: b).takeWhile (fun ch => ch != '.') = a
      ∧ (a ++ '.' :: b).dropWhile (fun ch => ch != '.') = '.' :: b := by
  induction a with
  | nil => constructor <;> simp [List.takeWhile, List.dropWhile]
  | cons x t ih =>
    have hx : (x != '.') = true := by
      simp only [bne_iff_ne, ne_eq, decide_eq_true_eq]
      exact ha x (List.mem_cons_self x t)
    have iht := ih (fun y hy => ha y (List.mem_cons_of_mem x hy))
    constructor
    · rw [List.cons_append, List.takeWhile_cons, hx]
      simp [iht.1]
    · rw [List.cons_append, List.dropWhile_cons, hx]
      simp [iht.2]

/-- The plain-decimal core denotes exactly `digits × 10^(e - len + 1)`. -/
theorem plainDecimalCore_exact (d : List Char) (e : Int)
    (_hd : d ≠ []) (hall : ∀ ch ∈ d, ch.isDigit = true) :
    decimalTextValUnsigned (plainDecimalCore d e)
      = (digitsVal d : ℚ) * (10 : ℚ) ^ (e - ((d.length : Int) - 1)) := by
  have hne : ∀ x ∈ d, x ≠ '.' := fun x hx => (isDigit_ne x (hall x hx)).1
  rw [plainDecimalCore]
  split_ifs with h1 h2
  · -- purely fractional value: e < 0
    set n := (-e - 1).toNat with hn
    have hnval : (n : Int) = -e - 1 := Int.toNat_of_nonneg (by omega)
    have hsplit := splitAtDot ['0'] (List.replicate n '0' ++ d)
      (by intro x hx; simp only [List.mem_singleton] at hx; subst hx; decide)
    simp only [List.cons_append, List.nil_append] at hsplit
    simp only [decimalTextValUnsigned]
    rw [hsplit.2, if_neg (by simp), hsplit.1]
    simp only [List.tail_cons]
    rw [digitsVal_append, digitsVal_replicate_zero, List.length_append,
      List.length_replicate]
    have hE : e - ((d.length : Int) - 1) = -((n + d.length : Nat) : Int) := by
      omega
    rw [hE, zpow_neg, zpow_natCast]
    have h0 : digitsVal ['0'] = 0 := by decide
    rw [h0]
    push_cast
    rw [div_eq_mul_inv]
    ring
  · -- integer value: len - 1 ≤ e
    set k := (e - ((d.length : Int) - 1)).toNat with hk
    have hkval : (k : Int) = e - ((d.length : Int) - 1) :=
      Int.toNat_of_nonneg (by omega)
    have hdropnil :
        (d ++ List.replicate k '0').dropWhile (fun ch => ch != '.') = [] := by
      rw [List.dropWhile_eq_nil_iff]
      intro x hx
      rcases List.mem_append.mp hx with hx | hx
      · simp only [bne_iff_ne, ne_eq, decide_eq_true_eq]
        exact hne x hx
      · rw [List.eq_of_mem_replicate hx]; decide
    simp only [decimalTextValUnsigned]
    rw [hdropnil, if_pos rfl]
    rw [digitsVal_append, digitsVal_replicate_zero, List.length_replicate]
    rw [← hkval, zpow_natCast]
    push_cast
    ring
  · -- mixed value: 0 ≤ e < len - 1
    set m := (e + 1).toNat with hm
    have hmval : (m : Int) = e + 1 := Int.toNat_of_nonneg (by omega)
    have hmle : m ≤ d.length := by omega
    have htake : ∀ x ∈ d.take m, x ≠ '.' :=
      fun x hx => hne x (List.take_subset m d hx)
    have hsplit := splitAtDot (d.take m) (d.drop m) htake
    simp only [decimalTextValUnsigned]
    rw [hsplit.2, if_neg (by simp), hsplit.1]
    simp only [List.tail_cons]
    have hsum : digitsVal d
        = digitsVal (d.take m) * 10 ^ (d.drop m).length
          + digitsVal (d.drop m) := by
      conv_lhs => rw [← List.take_append_drop m d]
      exact digitsVal_append _ _
    rw [hsum]
    have hE : e - ((d.length : Int) - 1) = -(((d.drop m).length : Nat) : Int) := by
      rw [List.length_drop]
      omega
    rw [hE, zpow_neg, zpow_natCast]
    have hpow : ((10 : ℚ) ^ (d.drop m).length) ≠ 0 := by positivity
    push_cast
    field_simp

/-- The unsigned plain-decimal core never starts with a minus sign. -/
theorem plainDecimalCore_head (d : List Char) (e : Int)
    (hd : d ≠ []) (hall : ∀ ch ∈ d, ch.isDigit = true) :
    (plainDecimalCore d e).head? ≠ some '-' := by
  rw [plainDecimalCore]
  split_ifs with h1 h2
  · simp
  · match d, hd with
    | x :: t, _ =>
      have hx := (isDigit_ne x (hall x (List.mem_cons_self x t))).2
      simp [hx]
  · match d, hd with
    | x :: t, _ =>
      have hx := (isDigit_ne x (hall x (List.mem_cons_self x t))).2
      obtain ⟨m', hm'⟩ : ∃ m', (e + 1).toNat = m' + 1 :=
        ⟨(e + 1).toNat - 1, by omega⟩
      rw [hm']
      simp [List.take_succ_cons, hx]

/-- C1: the verbatim copy strips exactly the ellipsis marker from the
currently rendered text; the exact-plain-decimal copy is built from the
canonical form alone — identical canonical forms give identical copies at
any pair of shifts — and denotes exactly the canonical form's value, with
correct leading and trailing zeros; in particular for the display fed with
`3e-30` it is `"0."` followed by 29 zeros followed by `"3"`. -/
theorem copy_operations_exact (c : Canon)
    (hd : c.digits ≠ [])
    (hall : ∀ ch ∈ c.digits, ch.isDigit = true)
    (hsign : c.sign = [] ∨ c.sign = ['-']) :
    decimalTextVal (plainDecimalOfCanon c) = canonVal c
      ∧ (∀ s1 s2 : DState, s1.canon = s2.canon → s1.sciMode = true →
          s2.sciMode = true →
          getCopyTextPlainDecimal s1 = getCopyTextPlainDecimal s2)
      ∧ getCopyText d3e30 = "3e-30".toList
      ∧ getCopyTextPlainDecimal d3e30
          = '0' :: '.' :: (List.replicate 29 '0' ++ ['3'])
      ∧ getCopyText (walkFwd d57 1) = ".7142857142857142".toList := by
  refine ⟨?_, ?_, by decide, by decide, by decide⟩
  · rw [plainDecimalOfCanon, if_neg hd, canonVal]
    rcases hsign with h0 | h1
    · rw [h0, List.nil_append, if_neg (by simp)]
      rw [decimalTextVal,
        if_neg (plainDecimalCore_head c.digits c.exponent hd hall)]
      rw [one_mul]
      exact plainDecimalCore_exact c.digits c.exponent hd hall
    · rw [h1, if_pos rfl]
      simp only [List.cons_append, List.nil_append]
      rw [decimalTextVal]
      simp only [List.head?_cons, List.tail_cons]
      rw [if_pos trivial]
      rw [plainDecimalCore_exact c.digits c.exponent hd hall]
      ring
  · intro s1 s2 hc h1 h2
    rw [getCopyTextPlainDecimal, getCopyTextPlainDecimal, if_pos h1,
      if_pos h2, hc]

/-- Witness for `copy_operations_exact` at the canonical form of the
`3e-30` display (digits `3`, exponent `-30`, empty sign). -/
theorem copy_operations_exact_witness :
    decimalTextVal (plainDecimalOfCanon d3e30.canon) = canonVal d3e30.canon := by
  exact (copy_operations_exact d3e30.canon (by decide) (by decide)
    (Or.inl (by decide))).1

/-! ## Claim C2 — rendered width bound

Decimal digit-count lemmas for `natRepr`, the mantissa-budget loop shape,
and per-layout length bounds for the three text builders. -/

theorem natDigitsRevAux_length_pos (fuel n : Nat) (h : n < fuel) :
    1 ≤ (natDigitsRevAux fuel n).length := by
  match fuel with
  | 0 => omega
  | f + 1 =>
    rw [natDigitsRevAux]
    split_ifs <;> simp

theorem natDigitsRevAux_length_le : ∀ fuel n k : Nat, n < fuel → n < 10 ^ k →
    1 ≤ k → (natDigitsRevAux fuel n).length ≤ k := by
  intro fuel
  induction fuel with
  | zero => intro n k h; omega
  | succ f ih =>
    intro n k hf hk h1
    rw [natDigitsRevAux]
    split_ifs with h10
    · simpa using h1
    · have hk2 : 2 ≤ k := by
        by_contra hcon
        have hk1 : k = 1 := by omega
        rw [hk1, pow_one] at hk
        omega
      have hlt : n / 10 < n := Nat.div_lt_self (by omega) (by norm_num)
      have hf' : n / 10 < f := by omega
      have hsplit : 10 ^ k = 10 ^ (k - 1) * 10 := by
        rw [← pow_succ]
        congr 1
        omega
      have hk' : n / 10 < 10 ^ (k - 1) :=
        (Nat.div_lt_iff_lt_mul (by norm_num)).mpr (by omega)
      have := ih (n / 10) (k - 1) hf' hk' (by omega)
      simp only [List.length_cons]
      omega

theorem natDigitsRevAux_length_ge : ∀ fuel n k : Nat, n < fuel → 10 ^ k ≤ n →
    k + 1 ≤ (natDigitsRevAux fuel n).length := by
  intro fuel
  induction fuel with
  | zero => intro n k h; omega
  | succ f ih =>
    intro n k hf hk
    rw [natDigitsRevAux]
    split_ifs with h10
    · have hk0 : k = 0 := by
        by_contra hcon
        have : 10 ^ 1 ≤ 10 ^ k := Nat.pow_le_pow_right (by norm_num) (by omega)
        rw [pow_one] at this
        omega
      simp [hk0]
    · have hlt : n / 10 < n := Nat.div_lt_self (by omega) (by norm_num)
      have hf' : n / 10 < f := by omega
      match k with
      | 0 =>
        have := natDigitsRevAux_length_pos f (n / 10) hf'
        simp only [List.length_cons]
        omega
      | j + 1 =>
        have hdiv : 10 ^ j ≤ n / 10 := by
          rw [Nat.le_div_iff_mul_le (by norm_num)]
          calc 10 ^ j * 10 = 10 ^ (j + 1) := (pow_succ 10 j).symm
            _ ≤ n := hk
        have := ih (n / 10) j hf' hdiv
        simp only [List.length_cons]
        omega

theorem natDigitsRevAux_lt_pow : ∀ fuel n : Nat, n < fuel →
    n < 10 ^ (natDigitsRevAux fuel n).length := by
  intro fuel
  induction fuel with
  | zero => intro n h; omega
  | succ f ih =>
    intro n hf
    rw [natDigitsRevAux]
    split_ifs with h10
    · simpa using h10
    · have hlt : n / 10 < n := Nat.div_lt_self (by omega) (by norm_num)
      have hf' : n / 10 < f := by omega
      have := ih (n / 10) hf'
      simp only [List.length_cons]
      have hpow : 10 ^ ((natDigitsRevAux f (n / 10)).length + 1)
          = 10 ^ (natDigitsRevAux f (n / 10)).length * 10 := pow_succ 10 _
      have hmod : n = n / 10 * 10 + n % 10 := (Nat.div_add_mod n 10).symm.trans
        (by ring)
      omega

theorem natRepr_length_pos (n : Nat) : 1 ≤ (natRepr n).length := by
  rw [natRepr, List.length_reverse, natDigitsRev]
  exact natDigitsRevAux_length_pos (n + 1) n (Nat.lt_succ_self n)

theorem natRepr_length_le (n k : Nat) (h : n < 10 ^ k) (h1 : 1 ≤ k) :
    (natRepr n).length ≤ k := by
  rw [natRepr, List.length_reverse, natDigitsRev]
  exact natDigitsRevAux_length_le (n + 1) n k (Nat.lt_succ_self n) h h1

theorem natRepr_length_ge (n k : Nat) (h : 10 ^ k ≤ n) :
    k + 1 ≤ (natRepr n).length := by
  rw [natRepr, List.length_reverse, natDigitsRev]
  exact natDigitsRevAux_length_ge (n + 1) n k (Nat.lt_succ_self n) h

theorem natRepr_lt_pow (n : Nat) : n < 10 ^ (natRepr n).length := by
  rw [natRepr, List.length_reverse, natDigitsRev]
  exact natDigitsRevAux_lt_pow (n + 1) n (Nat.lt_succ_self n)

/-- The forced-sign integer representation is one character longer than
the decimal representation of the absolute value. -/
theorem intReprForced_length (x : Int) :
    (intReprForced x).length = (natRepr x.natAbs).length + 1 := by
  rw [intReprForced]
  split_ifs with h
  · have hx : (-x).toNat = x.natAbs := by omega
    rw [List.length_cons, hx]
  · have hx : x.toNat = x.natAbs := by omega
    rw [List.length_cons, hx]

theorem natMax1_pos (x : Int) : 1 ≤ natMax1 x := by
  rw [natMax1]; omega

theorem natMax1_le (x : Int) (c : Nat) (hx : x ≤ (c : Int)) (hc : 1 ≤ c) :
    natMax1 x ≤ c := by
  rw [natMax1]; omega

theorem natMax1_eq (x : Int) (h : 1 ≤ x) : (natMax1 x : Int) = x := by
  rw [natMax1]; omega

theorem slice_length_le (l : List Char) (a b : Nat) :
    (slice l a b).length ≤ b - a := by
  rw [slice, List.length_take]
  omega

theorem takeLast_length_le (k : Nat) (l : List Char) :
    (takeLast k l).length ≤ k := by
  rw [takeLast, List.length_drop]
  omega

/-- The exponent suffix `e±…` of any exponent below `10^10` in magnitude
is between 3 and 12 characters. -/
theorem expTextLen_bounds (x : Int) (hx : x.natAbs < 10 ^ 10) :
    3 ≤ ('e' :: intReprForced x).length
      ∧ ('e' :: intReprForced x).length ≤ 12 := by
  rw [List.length_cons, intReprForced_length]
  have h1 := natRepr_length_pos x.natAbs
  have h2 := natRepr_length_le x.natAbs 10 hx (by norm_num)
  omega

theorem sciMantissaLoop_zero (e : Int) (cb eff md : Nat) :
    sciMantissaLoop e cb false eff 0 md = md := rfl

/-- One iteration of the mantissa-budget loop without separator. -/
theorem sciMantissaLoop_succ (e : Int) (cb eff fuel md : Nat) :
    sciMantissaLoop e cb false eff (fuel + 1) md
      = (if natMax1 ((cb : Int)
            - (('e' :: intReprForced
                (e - ((eff : Int) + (md : Int) - 1))).length : Int)) = md
         then md
         else sciMantissaLoop e cb false eff fuel
           (natMax1 ((cb : Int)
              - (('e' :: intReprForced
                  (e - ((eff : Int) + (md : Int) - 1))).length : Int)))) := by
  rw [sciMantissaLoop]
  simp only [Bool.false_eq_true, if_false]

/-- Shape of the mantissa-budget fixpoint search: whatever path the
`range(4)` loop takes, its result is the clamped core budget minus the
width of the exponent text at *some* intermediate mantissa count
`1 ≤ m ≤ coreBudget`. -/
theorem sciMantissaLoop_shape (e : Int) (cb eff : Nat) (hcb : 1 ≤ cb) :
    ∀ fuel md0 : Nat, 1 ≤ md0 → md0 ≤ cb →
      ∃ m, 1 ≤ m ∧ m ≤ cb ∧
        sciMantissaLoop e cb false eff (fuel + 1) md0
          = natMax1 ((cb : Int)
              - (('e' :: intReprForced
                  (e - ((eff : Int) + (m : Int) - 1))).length : Int)) := by
  intro fuel
  induction fuel with
  | zero =>
    intro md0 h1 h2
    rw [sciMantissaLoop_succ]
    split_ifs with heq
    · exact ⟨md0, h1, h2, heq.symm⟩
    · rw [sciMantissaLoop_zero]
      exact ⟨md0, h1, h2, rfl⟩
  | succ f ih =>
    intro md0 h1 h2
    rw [sciMantissaLoop_succ]
    split_ifs with heq
    · exact ⟨md0, h1, h2, heq.symm⟩
    · exact ih _ (natMax1_pos _) (natMax1_le _ cb (by omega) hcb)

/-- Core width bound of the shifted scientific layout: the shown mantissa
count plus the final exponent-text width never exceeds the core budget,
even when the budget loop oscillates across an exponent-width boundary
(there the final clamp shrinks the mantissa by exactly the one character
the exponent text grows by). -/
theorem sciCore_length_le (e : Int) (cb eff md available shown1 shown L1 L2 : Nat)
    (hcb16 : 16 ≤ cb) (hcb17 : cb ≤ 17)
    (heffb : eff ≤ 1001000000)
    (hexp : e.natAbs ≤ 1000000000)
    (havail : 1 ≤ available)
    (hmd : md = sciMantissaLoop e cb false eff 4 (1 ⊔ cb))
    (hshown1 : shown1 = available ⊓ md)
    (hL1 : L1 = ('e' :: intReprForced
        (e - ((eff : Int) + (shown1 : Int) - 1))).length)
    (hshown : shown = shown1 ⊓ natMax1 ((cb : Int) - (L1 : Int) - 0))
    (hL2 : L2 = ('e' :: intReprForced
        (e - ((eff : Int) + (shown : Int) - 1))).length) :
    shown + L2 ≤ cb := by
  have hten : (10 : Nat) ^ 10 = 10000000000 := by norm_num
  obtain ⟨m, hm1, hm2, hmdeq⟩ := sciMantissaLoop_shape e cb eff (by omega) 3
    (1 ⊔ cb) (by omega) (by omega)
  rw [show (3 : Nat) + 1 = 4 from rfl] at hmdeq
  rw [← hmd] at hmdeq
  set xm : Int := e - ((eff : Int) + (m : Int) - 1) with hxmdef
  set Lm : Nat := ('e' :: intReprForced xm).length with hLmdef
  have hxmabs : xm.natAbs < 10 ^ 10 := by omega
  have hLmB := expTextLen_bounds xm hxmabs
  have hmdv : (md : Int) = (cb : Int) - (Lm : Int) := by
    rw [hmdeq]
    exact natMax1_eq _ (by omega)
  have hsh1md : shown1 ≤ md := by omega
  have hsh1pos : 1 ≤ shown1 := by
    have : 1 ≤ md := by omega
    omega
  have hsh1cb : shown1 ≤ 17 := by omega
  set x1 : Int := e - ((eff : Int) + (shown1 : Int) - 1) with hx1def
  have hx1abs : x1.natAbs < 10 ^ 10 := by omega
  have hL1B' := expTextLen_bounds x1 hx1abs
  have hL1B : 3 ≤ L1 ∧ L1 ≤ 12 := by rw [hL1]; exact hL1B'
  have hmaxv : (natMax1 ((cb : Int) - (L1 : Int) - 0) : Int)
      = (cb : Int) - (L1 : Int) := by
    rw [natMax1_eq _ (by omega)]
    omega
  by_cases hcase : shown1 ≤ natMax1 ((cb : Int) - (L1 : Int) - 0)
  · have hs : shown = shown1 := by rw [hshown]; omega
    have hL2eq : L2 = L1 := by rw [hL2, hL1, hs]
    omega
  · have hs : (shown : Int) = (cb : Int) - (L1 : Int) := by
      rw [hshown]
      push_neg at hcase
      omega
    -- exponent-width boundary: the budget loop's exponent was one
    -- character narrower than the final one
    have hLm2 : Lm = (natRepr xm.natAbs).length + 2 := by
      rw [hLmdef, List.length_cons, intReprForced_length]
    have hL12 : L1 = (natRepr x1.natAbs).length + 2 := by
      rw [hL1, List.length_cons, intReprForced_length]
    set rm : Nat := (natRepr xm.natAbs).length with hrmdef
    set r1 : Nat := (natRepr x1.natAbs).length with hr1def
    have hrm1 : 1 ≤ rm := natRepr_length_pos _
    have hLmlt : Lm + 1 ≤ L1 := by
      push_neg at hcase
      omega
    have hr1ge : rm + 1 ≤ r1 := by omega
    have hxmlt : xm.natAbs < 10 ^ rm := natRepr_lt_pow xm.natAbs
    have hx1ge : 10 ^ rm ≤ x1.natAbs := by
      by_contra hcon
      push_neg at hcon
      have := natRepr_length_le x1.natAbs rm hcon hrm1
      omega
    have hdiffb : x1.natAbs ≤ xm.natAbs + 16 := by omega
    have h10 : (10 : Nat) ≤ 10 ^ rm := by
      calc (10 : Nat) = 10 ^ 1 := (pow_one 10).symm
        _ ≤ 10 ^ rm := Nat.pow_le_pow_right (by norm_num) hrm1
    have hpowsucc : (10 : Nat) ^ (rm + 1) = 10 ^ rm * 10 := pow_succ 10 rm
    have hr1le : r1 ≤ rm + 1 :=
      natRepr_length_le x1.natAbs (rm + 1) (by omega) (by omega)
    have hdelta : shown1 = shown + 1 := by
      push_neg at hcase
      omega
    set x2 : Int := e - ((eff : Int) + (shown : Int) - 1) with hx2def
    have hx2v : x2 = x1 + 1 := by
      rw [hx2def, hx1def]
      omega
    have hx2abs : x2.natAbs ≤ x1.natAbs + 1 := by omega
    have hL22 : L2 = (natRepr x2.natAbs).length + 2 := by
      rw [hL2, List.length_cons, intReprForced_length]
    have hr2le : (natRepr x2.natAbs).length ≤ rm + 1 :=
      natRepr_length_le x2.natAbs (rm + 1) (by omega) (by omega)
    omega

/-- The virtual digit string adds at most `|exponent|` padding zeros. -/
theorem virtualDigits_length_le (c : Canon) :
    (virtualDigitsForShifting c).length
      ≤ c.digits.length + c.exponent.natAbs := by
  have hlen : c.digits = [] ∨ 1 ≤ c.digits.length := by
    rcases c.digits with _ | ⟨x, t⟩
    · exact Or.inl rfl
    · right; simp
  simp only [virtualDigitsForShifting]
  split_ifs with h1 h2 h3
  · simp
  · exact Nat.le_add_right _ _
  · rw [List.length_append, List.length_replicate]
    have h1len : 1 ≤ c.digits.length := List.length_pos.mpr h1
    rw [natMax0]
    omega
  · exact Nat.le_add_right _ _

/-- The unshifted scientific text fits the visible window. -/
theorem formatInitial_length_le (c : Canon)
    (hsign : c.sign.length ≤ 1) (hexp : c.exponent.natAbs ≤ 1000000000) :
    (formatInitialScientific c).length ≤ 17 := by
  have hten : (10 : Nat) ^ 10 = 10000000000 := by norm_num
  have hL := expTextLen_bounds c.exponent (by omega)
  have hbud : (natMax1 ((17 : Int) - (c.sign.length : Int)
      - (('e' :: intReprForced c.exponent).length : Int)) : Int)
      = (17 : Int) - (c.sign.length : Int)
        - (('e' :: intReprForced c.exponent).length : Int) :=
    natMax1_eq _ (by omega)
  rw [formatInitialScientific]
  simp only [List.length_append]
  split_ifs with h1 h2 h3
  · rw [List.length_take]
    omega
  · rw [List.length_take]
    omega
  · rw [List.length_append, List.length_take, List.length_cons]
    have hfr := slice_length_le c.digits 1
      (1 + (natMax1 ((17 : Int) - (c.sign.length : Int)
        - (('e' :: intReprForced c.exponent).length : Int)) - 2))
    omega
  · rw [List.length_take]
    omega

/-- The initial visible text fits the visible window. -/
theorem initialVisible_length_le (c : Canon)
    (hsign : c.sign.length ≤ 1) (hexp : c.exponent.natAbs ≤ 1000000000)
    (hinit : c.sourceKind = some SourceKind.decimal
        ∨ c.initialText = formatInitialScientific c) :
    (initialVisibleText c).length ≤ 17 := by
  rw [initialVisibleText]
  split_ifs with h1 h2
  · rcases hinit with hk | he
    · exact absurd hk h1
    · rw [he]
      exact formatInitial_length_le c hsign hexp
  · exact h2
  · rw [List.length_take]
    have : visibleCapacityChars = 17 := rfl
    omega

/-- Every plain-decimal window text fits `17 + 1` characters (the sign,
the ellipsis and a core of at most `natMax1 (17 - |sign|)` characters). -/
theorem buildPlainDec_length_le (c : Canon) (shift : Nat)
    (hsign : c.sign.length ≤ 1) (pd : List Char × Bool)
    (h : buildPlainDecimalWindowText c shift = some pd) :
    pd.1.length ≤ 18 := by
  have hbw : (natMax1 ((17 : Int) - (c.sign.length : Int)) : Int)
      = (17 : Int) - (c.sign.length : Int) := natMax1_eq _ (by omega)
  have hch1 := slice_length_le (virtualDigitsForShifting c)
    (effectiveShift c shift ⊓ ((virtualDigitsForShifting c).length - 1))
    ((effectiveShift c shift ⊓ ((virtualDigitsForShifting c).length - 1))
      + natMax1 ((17 : Int) - (c.sign.length : Int)))
  have hch2 := slice_length_le (virtualDigitsForShifting c)
    (effectiveShift c shift ⊓ ((virtualDigitsForShifting c).length - 1))
    ((effectiveShift c shift ⊓ ((virtualDigitsForShifting c).length - 1))
      + (1 ⊔ (natMax1 ((17 : Int) - (c.sign.length : Int)) - 1)))
  simp only [buildPlainDecimalWindowText] at h
  split_ifs at h <;>
    first
      | (exfalso; exact Option.noConfusion h)
      | (simp only [Option.some.injEq] at h
         subst h
         simp only []
         simp only [List.length_append, List.length_cons, List.length_take,
           List.length_drop]
         omega)

/-- Every shifted scientific / plain-tail text fits `17 + 1` characters
for a well-formed canonical form. -/
theorem buildShifted_length_le (c : Canon) (shift : Nat) (pt : Bool)
    (hsign : c.sign.length ≤ 1)
    (hdig : c.digits.length ≤ 1000000)
    (hexp : c.exponent.natAbs ≤ 1000000000) :
    (buildShiftedScientificText c shift pt).1.length ≤ 18 := by
  have hcbv : (natMax1 ((17 : Int) - (c.sign.length : Int)) : Int)
      = (17 : Int) - (c.sign.length : Int) := natMax1_eq _ (by omega)
  have hvlen : (virtualDigitsForShifting c).length ≤ 1001000000 :=
    le_trans (virtualDigits_length_le c) (by omega)
  have hsepF : (showShiftedSeparator = true
      ∧ c.sourceKind = some SourceKind.decimal) = False := by
    simp [showShiftedSeparator]
  simp only [buildShiftedScientificText, hsepF, if_false, false_and,
    decide_False]
  split_ifs <;>
    first
      | (simp only [] at *
         simp only [List.length_append, List.length_cons, takeLast,
           List.length_drop, List.length_singleton, List.length_nil] at *
         omega)
      | (simp only []
         simp only [List.length_append, List.length_cons]
         set eff := effectiveShift c shift
           ⊓ ((virtualDigitsForShifting c).length - 1) with heff
         set cb := natMax1 ((17 : Int) - (c.sign.length : Int)) with hcb
         set md := sciMantissaLoop c.exponent cb false eff 4 (1 ⊔ cb) with hmd
         set available := natMax1 (((virtualDigitsForShifting c).length : Int)
           - (eff : Int)) with hav
         set shown1 := available ⊓ md with hsh1
         set L1c := (intReprForced
           (c.exponent - ((eff : Int) + (shown1 : Int) - 1))).length with hL1c
         set shown := shown1
           ⊓ natMax1 ((cb : Int) - ((L1c + 1 : Nat) : Int) - 0) with hsh
         set L2c := (intReprForced
           (c.exponent - ((eff : Int) + (shown : Int) - 1))).length with hL2c
         have hms := slice_length_le (virtualDigitsForShifting c) eff
           (eff + shown)
         have hcore := sciCore_length_le c.exponent cb eff md available shown1
           shown (L1c + 1) (L2c + 1) (by omega) (by omega) (by omega) hexp
           (by rw [hav]; exact natMax1_pos _) hmd hsh1
           (by rw [hL1c, List.length_cons]) hsh
           (by rw [hL2c, List.length_cons])
         omega)

/-- C2 counterexample: the very first forward step on the long plain
decimal `0.71428571428571428571428571428571` renders 18 characters — the
ellipsis marker plus a 17-character core — exceeding the claimed capacity
`W = 17` by one. -/
theorem render_width_counterexample :
    (walkFwd d57 1).text.length = visibleCapacityChars + 1
      ∧ ¬ (walkFwd d57 1).text.length ≤ visibleCapacityChars := by
  decide

/-- C2 (amended): for every well-formed canonical form (sign at most one
character, at most `10^6` digits, exponent magnitude at most `10^9`, the
initial text as `set_text` constructs it), every rendered text — in every
layout, at every shift, with either force flag — has length at most
`W + 1 = 18`: the fixed visible capacity plus the one-character ellipsis
marker.  The claimed bound `W = 17` itself is exceeded
(`render_width_counterexample`). -/
theorem render_width_amended (c : Canon) (shift : Nat) (force : Bool)
    (hsign : c.sign.length ≤ 1)
    (hdig : c.digits.length ≤ 1000000)
    (hexp : c.exponent.natAbs ≤ 1000000000)
    (hinit : c.sourceKind = some SourceKind.decimal
        ∨ c.initialText = formatInitialScientific c) :
    (renderCore c shift force).2.2.length ≤ visibleCapacityChars + 1 := by
  have h18 : visibleCapacityChars + 1 = 18 := rfl
  rw [h18]
  simp only [renderCore]
  split_ifs <;>
    first
      | (simp only []
         simp only [List.length_cons, List.length_nil]
         omega)
      | (exact le_trans (initialVisible_length_le c hsign hexp hinit)
          (by omega))
      | (split <;>
          first
            | (exact buildPlainDec_length_le c _ hsign _ (by assumption))
            | (exact buildShifted_length_le c _ _ hsign hdig hexp))

/-- Witness for `render_width_amended` at the long-decimal canonical form
and shift 1 (where the rendered text has length exactly 18). -/
theorem render_width_amended_witness :
    (renderCore d57.canon 1 false).2.2.length ≤ visibleCapacityChars + 1 := by
  exact render_width_amended d57.canon 1 false (by decide) (by decide)
    (by decide) (Or.inl (by decide))

end CalcPy
